import Mathlib

set_option maxHeartbeats 1000000

/-! Verification development for the site's publishing scripts.

The definitions below are a shallow embedding of `scripts/fetch_douban.py`
(poster candidate cascade, image validator, publish-queue merger) and of
`scripts/publish_dispatch.py` (per-item per-platform dispatch state machine).
Network I/O, the environment, clocks and hashing are modelled as explicit
oracle parameters; everything the scripts compute from those inputs is
translated directly. -/

/-! ### Python `str.strip()` -/

def isPySpace (c : Char) : Bool := c.isWhitespace

def stripList (l : List Char) : List Char :=
  ((l.dropWhile isPySpace).reverse.dropWhile isPySpace).reverse

/-- Model of Python `str.strip()`: drop leading and trailing whitespace. -/
def pyStrip (s : String) : String := String.mk (stripList s.toList)

theorem dropWhile_idem {α : Type} (p : α → Bool) :
    ∀ l : List α, (l.dropWhile p).dropWhile p = l.dropWhile p := by
  intro l
  induction l with
  | nil => rfl
  | cons a t ih =>
    by_cases h : p a = true
    · simp [List.dropWhile_cons, h, ih]
    · simp [List.dropWhile_cons, h]

theorem length_dropWhile_le' {α : Type} (p : α → Bool) :
    ∀ l : List α, (l.dropWhile p).length ≤ l.length := by
  intro l
  induction l with
  | nil => exact Nat.le_refl _
  | cons a t ih =>
    by_cases h : p a = true
    · simp only [List.dropWhile_cons, h, if_true]
      exact Nat.le_trans ih (Nat.le_succ _)
    · simp [List.dropWhile_cons, h]

theorem dropWhile_fix_head_false {α : Type} (p : α → Bool) {a : α} {t l : List α}
    (h : l.dropWhile p = a :: t) : p a = false := by
  induction l with
  | nil => simp [List.dropWhile] at h
  | cons b tb ih =>
    by_cases hb : p b = true
    · rw [List.dropWhile_cons, if_pos hb] at h
      exact ih h
    · rw [List.dropWhile_cons, if_neg hb] at h
      cases h
      exact Bool.eq_false_iff.mpr hb

theorem dropWhile_append_nil {α : Type} (p : α → Bool) {l₁ : List α} (l₂ : List α)
    (h : l₁.dropWhile p = []) : (l₁ ++ l₂).dropWhile p = l₂.dropWhile p := by
  induction l₁ with
  | nil => rfl
  | cons a t ih =>
    by_cases ha : p a = true
    · rw [List.dropWhile_cons, if_pos ha] at h
      rw [List.cons_append, List.dropWhile_cons, if_pos ha]
      exact ih h
    · rw [List.dropWhile_cons, if_neg ha] at h
      exact absurd h (List.cons_ne_nil _ _)

theorem dropWhile_append_cons {α : Type} (p : α → Bool) {l₁ : List α} (l₂ : List α)
    {a : α} {t : List α} (h : l₁.dropWhile p = a :: t) :
    (l₁ ++ l₂).dropWhile p = a :: t ++ l₂ := by
  induction l₁ with
  | nil => simp [List.dropWhile] at h
  | cons b tb ih =>
    by_cases hb : p b = true
    · rw [List.dropWhile_cons, if_pos hb] at h
      rw [List.cons_append, List.dropWhile_cons, if_pos hb]
      exact ih h
    · rw [List.dropWhile_cons, if_neg hb] at h
      cases h
      rw [List.cons_append, List.dropWhile_cons, if_neg hb]

theorem dropWhile_rtrim {α : Type} (p : α → Bool) :
    ∀ l : List α, l.dropWhile p = l →
      ((l.reverse.dropWhile p).reverse).dropWhile p = (l.reverse.dropWhile p).reverse := by
  intro l hl
  cases l with
  | nil => rfl
  | cons a t =>
    have ha : p a = false := dropWhile_fix_head_false p hl
    have hrev : (a :: t).reverse = t.reverse ++ [a] := by simp
    rw [hrev]
    cases hgt : t.reverse.dropWhile p with
    | nil =>
      rw [dropWhile_append_nil p [a] hgt]
      have h1 : List.dropWhile p [a] = [a] := by
        simp [List.dropWhile_cons, ha]
      rw [h1]
      simp [List.dropWhile_cons, ha]
    | cons y ys =>
      rw [dropWhile_append_cons p [a] hgt]
      have : (y :: ys ++ [a]).reverse = a :: (ys.reverse ++ [y]) := by simp
      rw [this]
      simp [List.dropWhile_cons, ha]

theorem stripList_idem : ∀ l : List Char, stripList (stripList l) = stripList l := by
  intro l
  unfold stripList
  set m := l.dropWhile isPySpace with hm
  have hmfix : m.dropWhile isPySpace = m := by
    rw [hm]; exact dropWhile_idem _ l
  have h2 := dropWhile_rtrim isPySpace m hmfix
  rw [h2]
  rw [List.reverse_reverse]
  rw [dropWhile_idem]

theorem pyStrip_idem (s : String) : pyStrip (pyStrip s) = pyStrip s := by
  unfold pyStrip
  have : (String.mk (stripList s.toList)).toList = stripList s.toList := rfl
  rw [this, stripList_idem]

/-- Python substring test `sub in s`. -/
def strContains (s sub : String) : Bool :=
  s.toList.tails.any (fun t => sub.toList.isPrefixOf t)

/-- Python `str.rstrip("/")`. -/
def rstripSlash (s : String) : String :=
  String.mk ((s.toList.reverse.dropWhile (fun c => c = '/')).reverse)

/-- Python `str.lower()`. -/
def pyLower (s : String) : String := String.mk (s.toList.map Char.toLower)

/-- Python `str.endswith(suffix)`. -/
def strEndsWith (s suffix : String) : Bool := suffix.toList.isSuffixOf s.toList

/-- Python `s[:-n]` for `n > 0`: drop the last `n` characters. -/
def strDropRight (n : Nat) (s : String) : String :=
  String.mk (s.toList.take (s.toList.length - n))

/-! ### Association lists: the model of Python `dict` (insertion ordered,
overwrite keeps the position of the key, new keys append at the end). -/

def alookup {β : Type} : List (String × β) → String → Option β
  | [], _ => none
  | (k, v) :: m, k' => if k = k' then some v else alookup m k'

def hasKey {β : Type} : List (String × β) → String → Bool
  | [], _ => false
  | (k, _) :: m, k' => k = k' || hasKey m k'

def akeys {β : Type} (m : List (String × β)) : List String := m.map Prod.fst

def aupsert {β : Type} (m : List (String × β)) (k : String) (v : β) : List (String × β) :=
  if hasKey m k then m.map (fun p => if p.1 = k then (k, v) else p) else m ++ [(k, v)]

theorem hasKey_iff_mem {β : Type} (m : List (String × β)) (k : String) :
    hasKey m k = true ↔ k ∈ akeys m := by
  induction m with
  | nil => simp [hasKey, akeys]
  | cons p m ih =>
    cases p with
    | mk k' v =>
      simp only [hasKey, akeys, List.map_cons, List.mem_cons, Bool.or_eq_true]
      constructor
      · rintro (h | h)
        · left; exact (decide_eq_true_eq.mp h).symm
        · right; exact (ih.mp h)
      · rintro (h | h)
        · left; exact decide_eq_true_eq.mpr h.symm
        · right; exact ih.mpr h

theorem alookup_none_iff {β : Type} (m : List (String × β)) (k : String) :
    alookup m k = none ↔ hasKey m k = false := by
  induction m with
  | nil => simp [alookup, hasKey]
  | cons p m ih =>
    cases p with
    | mk k' v =>
      by_cases h : k' = k
      · simp [alookup, hasKey, h]
      · simp [alookup, hasKey, h, ih]

theorem alookup_mem {β : Type} {m : List (String × β)} {k : String} {v : β}
    (h : alookup m k = some v) : (k, v) ∈ m := by
  induction m with
  | nil => simp [alookup] at h
  | cons p m ih =>
    cases p with
    | mk k' v' =>
      by_cases hk : k' = k
      · rw [alookup, if_pos hk] at h
        cases h
        subst hk
        exact List.mem_cons_self _ _
      · rw [alookup, if_neg hk] at h
        exact List.mem_cons_of_mem _ (ih h)

theorem alookup_some_hasKey {β : Type} {m : List (String × β)} {k : String} {v : β}
    (h : alookup m k = some v) : hasKey m k = true := by
  by_cases hk : hasKey m k = true
  · exact hk
  · rw [(alookup_none_iff m k).mpr (Bool.eq_false_iff.mpr hk)] at h
    cases h

def mapReplace {β : Type} (m : List (String × β)) (k : String) (v : β) : List (String × β) :=
  m.map (fun p => if p.1 = k then (k, v) else p)

theorem mapReplace_cons_eq {β : Type} (m : List (String × β)) (k : String) (v v' : β) :
    mapReplace ((k, v') :: m) k v = (k, v) :: mapReplace m k v := by
  unfold mapReplace
  rw [List.map_cons]
  congr 1
  exact if_pos rfl

theorem mapReplace_cons_ne {β : Type} (m : List (String × β)) (k k' : String) (v v' : β)
    (h : k' ≠ k) : mapReplace ((k', v') :: m) k v = (k', v') :: mapReplace m k v := by
  unfold mapReplace
  rw [List.map_cons]
  congr 1
  exact if_neg h

theorem alookup_mapReplace_self {β : Type} (m : List (String × β)) (k : String) (v : β)
    (h : hasKey m k = true) : alookup (mapReplace m k v) k = some v := by
  induction m with
  | nil => simp [hasKey] at h
  | cons p m ih =>
    cases p with
    | mk k' v' =>
      by_cases hk : k' = k
      · subst hk
        rw [mapReplace_cons_eq, alookup, if_pos rfl]
      · rw [mapReplace_cons_ne m k k' v v' hk, alookup, if_neg hk]
        apply ih
        rw [hasKey, Bool.or_eq_true] at h
        rcases h with h | h
        · exact absurd (decide_eq_true_eq.mp h) hk
        · exact h

theorem alookup_mapReplace_ne {β : Type} (m : List (String × β)) (k k' : String) (v : β)
    (h : k' ≠ k) : alookup (mapReplace m k v) k' = alookup m k' := by
  induction m with
  | nil => rfl
  | cons p m ih =>
    cases p with
    | mk ka va =>
      by_cases hka : ka = k
      · subst hka
        rw [mapReplace_cons_eq, alookup, alookup,
          if_neg (fun hh => h hh.symm), if_neg (fun hh => h hh.symm)]
        exact ih
      · rw [mapReplace_cons_ne m k ka v va hka, alookup, alookup]
        by_cases hk' : ka = k'
        · rw [if_pos hk', if_pos hk']
        · rw [if_neg hk', if_neg hk']
          exact ih

theorem alookup_append_single_self {β : Type} (m : List (String × β)) (k : String) (v : β)
    (h : hasKey m k = false) : alookup (m ++ [(k, v)]) k = some v := by
  induction m with
  | nil => simp [alookup]
  | cons p m ih =>
    cases p with
    | mk k' v' =>
      rw [hasKey] at h
      have h1 : ¬ k' = k := by
        intro hk
        rw [hk] at h
        simp at h
      have h2 : hasKey m k = false := by
        rcases Bool.or_eq_false_iff.mp h with ⟨_, h2⟩
        exact h2
      rw [List.cons_append, alookup, if_neg h1]
      exact ih h2

theorem alookup_append_single_ne {β : Type} (m : List (String × β)) (k k' : String) (v : β)
    (h : k' ≠ k) : alookup (m ++ [(k, v)]) k' = alookup m k' := by
  induction m with
  | nil =>
    have hkk : ¬ k = k' := fun hh => h hh.symm
    simp [alookup, hkk]
  | cons p m ih =>
    cases p with
    | mk ka va =>
      rw [List.cons_append, alookup, alookup]
      by_cases hk' : ka = k'
      · rw [if_pos hk', if_pos hk']
      · rw [if_neg hk', if_neg hk']
        exact ih

theorem alookup_aupsert_self {β : Type} (m : List (String × β)) (k : String) (v : β) :
    alookup (aupsert m k v) k = some v := by
  unfold aupsert
  by_cases h : hasKey m k = true
  · rw [if_pos h]
    exact alookup_mapReplace_self m k v h
  · rw [if_neg h]
    exact alookup_append_single_self m k v (Bool.eq_false_iff.mpr h)

theorem alookup_aupsert_ne {β : Type} (m : List (String × β)) (k k' : String) (v : β)
    (h : k' ≠ k) : alookup (aupsert m k v) k' = alookup m k' := by
  unfold aupsert
  by_cases hm : hasKey m k = true
  · rw [if_pos hm]
    exact alookup_mapReplace_ne m k k' v h
  · rw [if_neg hm]
    exact alookup_append_single_ne m k k' v h

theorem akeys_aupsert_hasKey {β : Type} (m : List (String × β)) (k : String) (v : β)
    (h : hasKey m k = true) : akeys (aupsert m k v) = akeys m := by
  unfold aupsert
  rw [if_pos h]
  show akeys (mapReplace m k v) = akeys m
  unfold akeys mapReplace
  rw [List.map_map]
  apply List.map_congr_left
  intro p _
  by_cases hp : p.1 = k
  · simp [hp]
  · simp [hp]

theorem akeys_aupsert_new {β : Type} (m : List (String × β)) (k : String) (v : β)
    (h : hasKey m k = false) : akeys (aupsert m k v) = akeys m ++ [k] := by
  unfold aupsert
  rw [if_neg (by rw [h]; exact Bool.false_ne_true)]
  unfold akeys
  simp

theorem nodup_akeys_aupsert {β : Type} (m : List (String × β)) (k : String) (v : β)
    (h : (akeys m).Nodup) : (akeys (aupsert m k v)).Nodup := by
  by_cases hm : hasKey m k = true
  · rw [akeys_aupsert_hasKey m k v hm]; exact h
  · rw [akeys_aupsert_new m k v (Bool.eq_false_iff.mpr hm)]
    rw [List.nodup_append]
    refine ⟨h, List.nodup_singleton _, ?_⟩
    intro a ha hb
    rw [List.mem_singleton] at hb
    subst hb
    exact hm ((hasKey_iff_mem m a).mpr ha)

theorem mem_aupsert {β : Type} {m : List (String × β)} {k : String} {v : β} {p : String × β}
    (h : p ∈ aupsert m k v) : p ∈ m ∨ p = (k, v) := by
  unfold aupsert at h
  by_cases hm : hasKey m k = true
  · rw [if_pos hm] at h
    rw [List.mem_map] at h
    obtain ⟨q, hq, hqp⟩ := h
    by_cases hqk : q.1 = k
    · right; rw [← hqp, if_pos hqk]
    · left; rw [← hqp, if_neg hqk]; exact hq
  · rw [if_neg hm] at h
    rw [List.mem_append, List.mem_singleton] at h
    exact h

theorem alookup_append_left {β : Type} {m : List (String × β)} {k : String} {v : β}
    (l : List (String × β)) (h : alookup m k = some v) : alookup (m ++ l) k = some v := by
  induction m with
  | nil => simp [alookup] at h
  | cons p m ih =>
    cases p with
    | mk ka va =>
      by_cases hk : ka = k
      · rw [alookup, if_pos hk] at h
        rw [List.cons_append, alookup, if_pos hk]
        exact h
      · rw [alookup, if_neg hk] at h
        rw [List.cons_append, alookup, if_neg hk]
        exact ih h

theorem mapReplace_not_mem {β : Type} {m : List (String × β)} {k : String} (v : β)
    (h : k ∉ akeys m) : mapReplace m k v = m := by
  induction m with
  | nil => rfl
  | cons p m ih =>
    obtain ⟨ka, va⟩ := p
    rw [akeys, List.map_cons, List.mem_cons] at h
    push_neg at h
    rw [mapReplace_cons_ne m k ka v va (fun hh => h.1 hh.symm)]
    congr 1
    exact ih h.2

theorem mapReplace_eq_self {β : Type} {m : List (String × β)} {k : String} {v : β}
    (hnd : (akeys m).Nodup) (h : alookup m k = some v) : mapReplace m k v = m := by
  induction m with
  | nil => rfl
  | cons p m ih =>
    obtain ⟨ka, va⟩ := p
    rw [akeys, List.map_cons, List.nodup_cons] at hnd
    by_cases hk : ka = k
    · subst hk
      rw [alookup, if_pos rfl] at h
      cases h
      rw [mapReplace_cons_eq]
      congr 1
      exact mapReplace_not_mem v hnd.1
    · rw [alookup, if_neg hk] at h
      rw [mapReplace_cons_ne m k ka v va hk]
      congr 1
      exact ih hnd.2 h

theorem aupsert_eq_self {β : Type} {m : List (String × β)} {k : String} {v : β}
    (hnd : (akeys m).Nodup) (h : alookup m k = some v) : aupsert m k v = m := by
  unfold aupsert
  rw [if_pos (alookup_some_hasKey h)]
  exact mapReplace_eq_self hnd h

theorem mem_alookup {β : Type} {m : List (String × β)} {k : String} {v : β}
    (hnd : (akeys m).Nodup) (h : (k, v) ∈ m) : alookup m k = some v := by
  induction m with
  | nil => cases h
  | cons p m ih =>
    obtain ⟨ka, va⟩ := p
    rw [akeys, List.map_cons, List.nodup_cons] at hnd
    rcases List.mem_cons.mp h with h1 | h1
    · cases h1
      rw [alookup, if_pos rfl]
    · have hka : ¬ ka = k := by
        intro hkk
        have h2 : k ∈ List.map Prod.fst m := List.mem_map_of_mem Prod.fst h1
        rw [hkk] at hnd
        exact hnd.1 h2
      rw [alookup, if_neg hka]
      exact ih hnd.2 h1

theorem alookup_perm {β : Type} {m₁ m₂ : List (String × β)} (hp : m₁.Perm m₂)
    (hnd : (akeys m₁).Nodup) (k : String) : alookup m₁ k = alookup m₂ k := by
  have hnd₂ : (akeys m₂).Nodup := ((hp.map Prod.fst).nodup_iff).mp hnd
  cases h1 : alookup m₁ k with
  | some v =>
    exact (mem_alookup hnd₂ (hp.mem_iff.mp (alookup_mem h1))).symm
  | none =>
    cases h2 : alookup m₂ k with
    | some v =>
      have := mem_alookup hnd (hp.mem_iff.mpr (alookup_mem h2))
      rw [h1] at this
      cases this
    | none => rfl

theorem assoc_ext {β : Type} : ∀ {m₁ m₂ : List (String × β)},
    (akeys m₁).Nodup → akeys m₁ = akeys m₂ →
    (∀ k, alookup m₁ k = alookup m₂ k) → m₁ = m₂ := by
  intro m₁
  induction m₁ with
  | nil =>
    intro m₂ _ hk _
    cases m₂ with
    | nil => rfl
    | cons q m₂ => simp [akeys] at hk
  | cons p m₁ ih =>
    intro m₂ hnd hk hl
    cases m₂ with
    | nil => simp [akeys] at hk
    | cons q m₂ =>
      obtain ⟨ka, va⟩ := p
      obtain ⟨kb, vb⟩ := q
      rw [akeys, akeys, List.map_cons, List.map_cons] at hk
      have hkab : ka = kb := (List.cons.inj hk).1
      subst hkab
      have htail : List.map Prod.fst m₁ = List.map Prod.fst m₂ := (List.cons.inj hk).2
      rw [akeys, List.map_cons, List.nodup_cons] at hnd
      have hv : va = vb := by
        have := hl ka
        rw [alookup, alookup, if_pos rfl, if_pos rfl] at this
        cases this
        rfl
      subst hv
      congr 1
      apply ih hnd.2 htail
      intro k
      by_cases hka : k = ka
      · subst hka
        have h1 : alookup m₁ k = none := by
          rw [alookup_none_iff, ← Bool.not_eq_true, hasKey_iff_mem]
          exact hnd.1
        have h2 : alookup m₂ k = none := by
          rw [alookup_none_iff, ← Bool.not_eq_true, hasKey_iff_mem]
          unfold akeys
          rw [← htail]
          exact hnd.1
        rw [h1, h2]
      · have := hl k
        rw [alookup, alookup, if_neg (fun hh => hka hh.symm),
          if_neg (fun hh => hka hh.symm)] at this
        exact this

theorem foldl_preserve {α σ : Type} {P : σ → Prop} {f : σ → α → σ} {l : List α} :
    ∀ {s : σ}, (∀ s a, a ∈ l → P s → P (f s a)) → P s → P (l.foldl f s) := by
  induction l with
  | nil => intro s _ hs; exact hs
  | cons a l ih =>
    intro s h hs
    rw [List.foldl_cons]
    exact ih (fun s2 b hb => h s2 b (List.mem_cons_of_mem a hb))
      (h s a (List.mem_cons_self a l) hs)

theorem foldl_congr_id {α σ : Type} {f : σ → α → σ} {l : List α} :
    ∀ {s : σ}, (∀ a, a ∈ l → f s a = s) → l.foldl f s = s := by
  induction l with
  | nil => intro s _; rfl
  | cons a l ih =>
    intro s h
    rw [List.foldl_cons, h a (List.mem_cons_self a l)]
    exact ih (fun b hb => h b (List.mem_cons_of_mem a hb))

/-! ### `scripts/publish_dispatch.py` — data model

JSON `null` and an absent `http_code` key are collapsed into `none`; the
dispatcher writes `http_code` but never reads it, so nothing observable
depends on the distinction. -/

/-- One queue element as read by the dispatcher (`item.get(...)` for the
five fields it uses). A missing field is the empty string. -/
structure QItem where
  title : String
  url : String
  source : String
  date : String
  file : String
deriving DecidableEq

/-- A per-(item, platform) slot of `publish_status.json`. -/
structure Slot where
  status : String
  last_attempt_at : String
  attempts : Nat
  message : String
  http_code : Option Int
deriving DecidableEq

/-- A per-url entry of `publish_status.json`. -/
structure ItemEntry where
  title : String
  source : String
  date : String
  file : String
  platforms : List (String × Slot)
  created_at : String
deriving DecidableEq

/-- The persisted dispatch-state file `publish_status.json`. -/
structure DispatchStatus where
  items : List (String × ItemEntry)
  updated_at : String
deriving DecidableEq

/-- Normalized outcome of `post_to_platform`. -/
structure PostResult where
  status : String
  message : String
  http_code : Option Int
deriving DecidableEq

/-- The JSON payload assembled by `build_payload`. -/
structure Payload where
  title : String
  url : String
  source : String
  date : String
  file : String
deriving DecidableEq

def build_payload (title url source date file : String) : Payload :=
  { title := pyStrip title, url := pyStrip url, source := pyStrip source,
    date := pyStrip date, file := pyStrip file }

def MAX_ATTEMPTS : Nat := 3

def TARGET_PLATFORMS : List String := ["baijiahao", "toutiao"]

/-! ### `post_to_platform` (lines 54-109)

The environment is an oracle `env : String → String` (`os.getenv(name, "")`:
an unset variable is `""`); the network interaction following a resolved
endpoint is an oracle `HttpOutcome`. -/

structure PlatformCfg where
  endpoint_env : String
  token_env : String
deriving DecidableEq

def PLATFORM_CONFIG : List (String × PlatformCfg) :=
  [("baijiahao", ⟨"BAIJIAHAO_PUBLISH_ENDPOINT", "BAIJIAHAO_PUBLISH_TOKEN"⟩),
   ("toutiao", ⟨"TOUTIAO_PUBLISH_ENDPOINT", "TOUTIAO_PUBLISH_TOKEN"⟩)]

/-- `cfg = PLATFORM_CONFIG.get(platform, {})` followed by
`cfg.get("endpoint_env", "")` / `cfg.get("token_env", "")`. -/
def cfgFor (platform : String) : PlatformCfg :=
  (alookup PLATFORM_CONFIG platform).getD ⟨"", ""⟩

/-- Endpoint resolution of lines 56-62: the platform's endpoint variable,
else the `PUBLISH_GATEWAY_BASE_URL` fallback, else empty. -/
def resolve_endpoint (env : String → String) (platform : String) : String :=
  let endpoint := pyStrip (env (cfgFor platform).endpoint_env)
  if endpoint = "" then
    let base := rstripSlash (pyStrip (env "PUBLISH_GATEWAY_BASE_URL"))
    if base ≠ "" then base ++ "/publish/" ++ platform else ""
  else endpoint

/-- Whether `post_to_platform` reaches the network request (everything after
line 69): exactly when an endpoint was resolved. -/
def post_attempts_network (env : String → String) (platform : String) : Bool :=
  resolve_endpoint env platform ≠ ""

/-- Outcome of the `urlopen` POST in `post_to_platform`: a response, an
`HTTPError` (with the diagnostic body text the handler ends up with), or a
transport-level error (`URLError`/`ValueError`/`TimeoutError`). -/
inductive HttpOutcome where
  | resp (code : Int) (raw : String)
  | httpError (code : Int) (body : String)
  | urlError (msg : String)
deriving DecidableEq

/-- Python `s[:n]` on a string. -/
def takeChars (n : Nat) (s : String) : String := String.mk (s.toList.take n)

/-- `cfg.get("endpoint_env", "N/A")` as used in the queued message. -/
def endpointEnvName (platform : String) : String :=
  ((alookup PLATFORM_CONFIG platform).map PlatformCfg.endpoint_env).getD "N/A"

def post_to_platform (env : String → String) (net : HttpOutcome) (platform : String) :
    PostResult :=
  let endpoint := resolve_endpoint env platform
  if endpoint = "" then
    { status := "queued",
      message := "missing endpoint env: " ++ endpointEnvName platform ++
        " and no PUBLISH_GATEWAY_BASE_URL",
      http_code := none }
  else
    match net with
    | .resp code raw =>
      { status := if 200 ≤ code ∧ code < 300 then "success" else "failed",
        message := if raw = "" then "ok" else takeChars 400 raw,
        http_code := some code }
    | .httpError code body =>
      { status := "failed",
        message := "HTTPError " ++ toString code ++ ": " ++ takeChars 300 body,
        http_code := some code }
    | .urlError msg =>
      { status := "failed", message := msg, http_code := none }

/-! ### The dispatch run (`main`, lines 112-181)

Per-run oracles: `adapter n` is the outcome of the n-th `post_to_platform`
call of the run, `attemptAt n` the `now_iso()` stamped on that attempt.
`log` is a ghost trace of the adapter calls that were made. -/

structure RunCtx where
  adapter : Nat → PostResult
  attemptAt : Nat → String

structure CallRec where
  url : String
  platform : String
  payload : Payload
deriving DecidableEq

structure RunState where
  items : List (String × ItemEntry)
  touched : Nat
  calls : Nat
  log : List CallRec
deriving DecidableEq

/-- The fresh slot of lines 146-151. -/
def freshSlot : Slot :=
  { status := "queued", last_attempt_at := "", attempts := 0,
    message := "MVP queue only, publisher adapter pending", http_code := none }

/-- The fresh url entry of lines 127-134. -/
def freshEntry (now : String) (item : QItem) : ItemEntry :=
  { title := pyStrip item.title, source := pyStrip item.source,
    date := pyStrip item.date, file := pyStrip item.file,
    platforms := [], created_at := now }

/-- Lines 144-169 for a single platform of a single queue item. -/
def processPlatform (ctx : RunCtx) (url : String) (payload : Payload)
    (st : RunState) (platform : String) : RunState :=
  match alookup st.items url with
  | none => st
  | some e0 =>
    let e := if hasKey e0.platforms platform then e0
             else { e0 with platforms := e0.platforms ++ [(platform, freshSlot)] }
    let st1 := if hasKey e0.platforms platform then st
               else { st with items := aupsert st.items url e, touched := st.touched + 1 }
    match alookup e.platforms platform with
    | none => st1
    | some slot =>
      if slot.status = "success" then st1
      else if MAX_ATTEMPTS ≤ slot.attempts then st1
      else
        let result := ctx.adapter st1.calls
        let slot2 : Slot :=
          { status := result.status, last_attempt_at := ctx.attemptAt st1.calls,
            attempts := slot.attempts + 1, message := result.message,
            http_code := result.http_code }
        { items := aupsert st1.items url { e with platforms := aupsert e.platforms platform slot2 },
          touched := st1.touched + 1, calls := st1.calls + 1,
          log := st1.log ++ [⟨url, platform, payload⟩] }

/-- Lines 121-169 for a single queue item. -/
def processItem (ctx : RunCtx) (now : String) (st : RunState) (item : QItem) : RunState :=
  let url := pyStrip item.url
  if url = "" then st
  else
    let st1 := if hasKey st.items url then st
               else { st with items := st.items ++ [(url, freshEntry now item)] }
    match alookup st1.items url with
    | none => st1
    | some e =>
      let payload := build_payload e.title url e.source e.date e.file
      TARGET_PLATFORMS.foldl (processPlatform ctx url payload) st1

/-- The in-memory result of one dispatch run over the whole queue. -/
def runStates (ctx : RunCtx) (now : String) (queue : List QItem)
    (items0 : List (String × ItemEntry)) : RunState :=
  queue.foldl (processItem ctx now) ⟨items0, 0, 0, []⟩

/-- One dispatch run: `main`. When no slot was touched the state file is not
written (lines 171-173), so the persisted state is returned unchanged;
otherwise the new items mapping is persisted with a fresh `updated_at`. -/
def runDispatch (ctx : RunCtx) (now endAt : String) (queue : List QItem)
    (prior : DispatchStatus) : DispatchStatus :=
  if (runStates ctx now queue prior.items).touched = 0 then prior
  else { items := (runStates ctx now queue prior.items).items, updated_at := endAt }

/-- One externally scheduled invocation of the dispatcher. -/
structure RunSpec where
  ctx : RunCtx
  now : String
  endAt : String
  queue : List QItem

/-- A sequence of dispatch runs applied to a persisted state. -/
def runSeq (specs : List RunSpec) (st : DispatchStatus) : DispatchStatus :=
  specs.foldl (fun s sp => runDispatch sp.ctx sp.now sp.endAt sp.queue s) st

/-! ### Dispatch theorems -/

theorem processItem_blank (ctx : RunCtx) (now : String) (st : RunState) (item : QItem)
    (h : pyStrip item.url = "") : processItem ctx now st item = st := by
  unfold processItem
  rw [if_pos h]

/-- C10: a queue entry whose `url` is missing, empty or whitespace-only is
skipped entirely: the item changes nothing of the run state (no entry
created, no adapter call logged), and a queue of only such items leaves the
persisted state file untouched. -/
theorem c10_blank_url_skipped (ctx : RunCtx) (now endAt : String) (st : RunState)
    (item : QItem) (queue : List QItem) (prior : DispatchStatus) :
    (pyStrip item.url = "" → processItem ctx now st item = st) ∧
    ((∀ it ∈ queue, pyStrip it.url = "") → runDispatch ctx now endAt queue prior = prior) := by
  constructor
  · exact processItem_blank ctx now st item
  · intro hq
    unfold runDispatch runStates
    rw [foldl_congr_id (fun it hit => processItem_blank ctx now _ it (hq it hit))]
    rfl

/-- C10 witness: a whitespace-only url is skipped and an all-blank queue is
a no-op run. -/
theorem c10_blank_url_skipped_witness :
    pyStrip "  " = "" ∧
    processItem ⟨fun _ => ⟨"failed", "m", none⟩, fun _ => "t"⟩ "n"
      ⟨[], 0, 0, []⟩ ⟨"T", "  ", "S", "d", "f"⟩ = ⟨[], 0, 0, []⟩ ∧
    runDispatch ⟨fun _ => ⟨"failed", "m", none⟩, fun _ => "t"⟩ "n" "e"
      [⟨"T", "  ", "S", "d", "f"⟩] ⟨[], "t0"⟩ = ⟨[], "t0"⟩ := by
  refine ⟨by decide, ?_, ?_⟩
  · exact (c10_blank_url_skipped _ "n" "e" ⟨[], 0, 0, []⟩ ⟨"T", "  ", "S", "d", "f"⟩ [] ⟨[], "t0"⟩).1 (by decide)
  · exact (c10_blank_url_skipped ⟨fun _ => ⟨"failed", "m", none⟩, fun _ => "t"⟩ "n" "e"
      ⟨[], 0, 0, []⟩ ⟨"T", "  ", "S", "d", "f"⟩ [⟨"T", "  ", "S", "d", "f"⟩] ⟨[], "t0"⟩).2
      (by intro it hit; rw [List.mem_singleton] at hit; subst hit; decide)

/-- A slot that is already terminal for the run: at `success`, or at the
attempt cap without `success`. -/
def slotSettled (sl : Slot) : Prop :=
  sl.status = "success" ∨ MAX_ATTEMPTS ≤ sl.attempts

theorem processPlatform_settled_id (ctx : RunCtx) (url : String) (payload : Payload)
    (st : RunState) (platform : String) (e : ItemEntry) (sl : Slot)
    (he : alookup st.items url = some e)
    (hsl : alookup e.platforms platform = some sl)
    (hs : slotSettled sl) :
    processPlatform ctx url payload st platform = st := by
  have hk : hasKey e.platforms platform = true := alookup_some_hasKey hsl
  unfold processPlatform
  rw [he]
  simp only [hk, if_true]
  simp only [hsl]
  rcases hs with hs | hs
  · rw [if_pos hs]
  · by_cases hsucc : sl.status = "success"
    · rw [if_pos hsucc]
    · rw [if_neg hsucc, if_pos hs]

theorem processItem_settled_id (ctx : RunCtx) (now : String) (st : RunState) (item : QItem)
    (e : ItemEntry)
    (he : alookup st.items (pyStrip item.url) = some e)
    (hp : ∀ p ∈ TARGET_PLATFORMS, ∃ sl, alookup e.platforms p = some sl ∧ slotSettled sl) :
    processItem ctx now st item = st := by
  unfold processItem
  by_cases hu : pyStrip item.url = ""
  · rw [if_pos hu]
  · rw [if_neg hu]
    have hk : hasKey st.items (pyStrip item.url) = true := alookup_some_hasKey he
    simp only [hk, if_true]
    rw [he]
    apply foldl_congr_id
    intro p hpmem
    obtain ⟨sl, hsl, hset⟩ := hp p hpmem
    exact processPlatform_settled_id ctx _ _ st p e sl he hsl hset

/-- C8: when every queue item is blank or already fully settled in the prior
state (each platform slot at `success` or at the attempt cap), the run
touches nothing and the persisted state file is not rewritten: the dispatch
result is the prior state, byte for byte, `updated_at` included. -/
theorem c8_noop_run_no_write (ctx : RunCtx) (now endAt : String) (queue : List QItem)
    (prior : DispatchStatus)
    (h : ∀ item ∈ queue, pyStrip item.url = "" ∨
      ∃ e, alookup prior.items (pyStrip item.url) = some e ∧
        ∀ p ∈ TARGET_PLATFORMS, ∃ sl, alookup e.platforms p = some sl ∧ slotSettled sl) :
    runDispatch ctx now endAt queue prior = prior := by
  unfold runDispatch runStates
  rw [foldl_congr_id]
  · rfl
  · intro item hitem
    rcases h item hitem with hb | ⟨e, he, hp⟩
    · exact processItem_blank ctx now _ item hb
    · exact processItem_settled_id ctx now _ item e he hp

/-- The settled entry used by the C8 witness. -/
def w8Entry : ItemEntry :=
  ⟨"T", "S", "d", "f",
    [("baijiahao", ⟨"success", "t1", 1, "ok", some 200⟩),
     ("toutiao", ⟨"failed", "t2", 3, "bad", some 500⟩)], "c0"⟩

/-- C8 witness: one item whose two slots are at `success` and at the cap;
the run rewrites nothing. -/
theorem c8_noop_run_no_write_witness :
    runDispatch ⟨fun _ => ⟨"failed", "m", none⟩, fun _ => "t"⟩ "n" "e2"
      [⟨"T", "u", "S", "d", "f"⟩] ⟨[("u", w8Entry)], "t0"⟩ = ⟨[("u", w8Entry)], "t0"⟩ := by
  apply c8_noop_run_no_write
  intro item hitem
  rw [List.mem_singleton] at hitem
  subst hitem
  right
  refine ⟨w8Entry, by decide, ?_⟩
  intro p hp
  simp only [TARGET_PLATFORMS, List.mem_cons, List.mem_singleton] at hp
  rcases hp with hp | hp | hp
  · subst hp
    exact ⟨⟨"success", "t1", 1, "ok", some 200⟩, by decide, Or.inl (by decide)⟩
  · subst hp
    exact ⟨⟨"failed", "t2", 3, "bad", some 500⟩, by decide, Or.inr (by decide)⟩
  · cases hp

/-! ### C1: configuration absence and the attempts counter -/

/-- An environment with no publishing configuration at all. -/
def env0 : String → String := fun _ => ""

/-- The result `post_to_platform` returns when no endpoint is configured;
the network outcome argument is never reached. -/
def qres : PostResult := post_to_platform env0 (HttpOutcome.urlError "unused") "baijiahao"

def c1Slot : Slot :=
  { status := "queued", last_attempt_at := "", attempts := 0,
    message := "MVP queue only, publisher adapter pending", http_code := none }

def c1Entry : ItemEntry :=
  ⟨"T", "S", "2024-01-01", "f.md",
    [("baijiahao", c1Slot), ("toutiao", ⟨"success", "t1", 1, "ok", some 200⟩)], "c0"⟩

def c1Prior : DispatchStatus := ⟨[("u", c1Entry)], "t0"⟩

def c1Ctx : RunCtx := ⟨fun _ => qres, fun _ => "t9"⟩

def c1Queue : List QItem := [⟨"T", "u", "S", "2024-01-01", "f.md"⟩]

/-- The attempts counter of a slot in a persisted dispatch state. -/
def attemptsAt (st : DispatchStatus) (url platform : String) : Option Nat :=
  (alookup st.items url).bind (fun e => (alookup e.platforms platform).map Slot.attempts)

/-- C1 counterexample: with no endpoint configured the adapter reports
`queued`, and the run still increments the slot's attempts counter from 0
to 1 — configuration absence does consume an attempt. -/
theorem c1_queued_consumes_attempt_counterexample :
    qres.status = "queued" ∧
    attemptsAt c1Prior "u" "baijiahao" = some 0 ∧
    attemptsAt (runDispatch c1Ctx "n0" "e1" c1Queue c1Prior) "u" "baijiahao" = some 1 := by
  decide

/-- C1 as amended: when the adapter call resolves no endpoint and therefore
returns status `queued`, the run records the queued status and its
explanatory message on the slot and increments the attempts counter by one
— exactly as for a failure, an attempt is consumed. -/
theorem c1_queued_result_consumes_attempt (ctx : RunCtx) (url : String) (payload : Payload)
    (st : RunState) (platform : String) (e : ItemEntry) (sl : Slot)
    (env : String → String) (net : HttpOutcome)
    (he : alookup st.items url = some e)
    (hsl : alookup e.platforms platform = some sl)
    (hns : sl.status ≠ "success") (hlt : sl.attempts < MAX_ATTEMPTS)
    (had : ctx.adapter st.calls = post_to_platform env net platform)
    (hq : resolve_endpoint env platform = "") :
    ∃ e2, alookup (processPlatform ctx url payload st platform).items url = some e2 ∧
      alookup e2.platforms platform = some
        { status := "queued", last_attempt_at := ctx.attemptAt st.calls,
          attempts := sl.attempts + 1,
          message := "missing endpoint env: " ++ endpointEnvName platform ++
            " and no PUBLISH_GATEWAY_BASE_URL",
          http_code := none } := by
  have hk : hasKey e.platforms platform = true := alookup_some_hasKey hsl
  have hpost : post_to_platform env net platform =
      { status := "queued",
        message := "missing endpoint env: " ++ endpointEnvName platform ++
          " and no PUBLISH_GATEWAY_BASE_URL",
        http_code := none } := by
    unfold post_to_platform
    rw [hq]
    rfl
  unfold processPlatform
  rw [he]
  simp only [hk, if_true]
  simp only [hsl]
  rw [if_neg hns, if_neg (Nat.not_le.mpr hlt)]
  rw [had, hpost]
  refine ⟨_, alookup_aupsert_self _ _ _, ?_⟩
  exact alookup_aupsert_self _ _ _

/-- C1 amended witness: the concrete no-configuration run of the
counterexample satisfies the amended statement. -/
theorem c1_queued_result_consumes_attempt_witness :
    ∃ e2, alookup (processPlatform c1Ctx "u"
        (build_payload "T" "u" "S" "2024-01-01" "f.md") ⟨c1Prior.items, 0, 0, []⟩
        "baijiahao").items "u" = some e2 ∧
      alookup e2.platforms "baijiahao" = some
        { status := "queued", last_attempt_at := "t9", attempts := 1,
          message := "missing endpoint env: BAIJIAHAO_PUBLISH_ENDPOINT" ++
            " and no PUBLISH_GATEWAY_BASE_URL",
          http_code := none } := by
  have h := c1_queued_result_consumes_attempt c1Ctx "u"
    (build_payload "T" "u" "S" "2024-01-01" "f.md") ⟨c1Prior.items, 0, 0, []⟩
    "baijiahao" c1Entry c1Slot env0 (HttpOutcome.urlError "unused")
    (by decide) (by decide) (by decide) (by decide) (by decide) (by decide)
  exact h

/-! ### C3: when does `post_to_platform` defer? -/

/-- An environment configuring the toutiao endpoint but no token. -/
def c3Env : String → String :=
  fun k => if k = "TOUTIAO_PUBLISH_ENDPOINT" then "https://api.example.com/pub" else ""

/-- C3 counterexample: with an endpoint configured but the credential/token
absent, `post_to_platform` does not return `queued`: it performs the network
call (here answered with HTTP 200) and reports `success`. A missing token
alone does not defer the attempt. -/
theorem c3_missing_token_still_posts_counterexample :
    pyStrip (c3Env "TOUTIAO_PUBLISH_TOKEN") = "" ∧
    post_attempts_network c3Env "toutiao" = true ∧
    (post_to_platform c3Env (HttpOutcome.resp 200 "created") "toutiao").status = "success" := by
  decide

/-- C3 as amended: `post_to_platform` returns `queued` exactly when no
destination endpoint resolves (neither the platform's endpoint variable nor
the gateway fallback); in that case no network request is attempted and the
message is the descriptive missing-endpoint diagnostic. Credential/token
absence does not defer: the request is still attempted. -/
theorem c3_queued_iff_endpoint_missing (env : String → String) (net : HttpOutcome)
    (platform : String) :
    ((post_to_platform env net platform).status = "queued" ↔
      resolve_endpoint env platform = "") ∧
    (resolve_endpoint env platform = "" →
      post_attempts_network env platform = false ∧
      (post_to_platform env net platform).message =
        "missing endpoint env: " ++ endpointEnvName platform ++
          " and no PUBLISH_GATEWAY_BASE_URL") := by
  constructor
  · constructor
    · intro h
      by_contra hne
      unfold post_to_platform at h
      rw [if_neg hne] at h
      cases net with
      | resp code raw =>
        simp only at h
        by_cases hok : 200 ≤ code ∧ code < 300
        · rw [if_pos hok] at h
          exact absurd h (by decide)
        · rw [if_neg hok] at h
          exact absurd h (by decide)
      | httpError code body =>
        simp only at h
        exact absurd h (by decide)
      | urlError msg =>
        simp only at h
        exact absurd h (by decide)
    · intro h
      unfold post_to_platform
      rw [if_pos h]
  · intro h
    constructor
    · unfold post_attempts_network
      simp [h]
    · unfold post_to_platform
      rw [if_pos h]

/-- C3 amended witness: the all-empty environment resolves no endpoint, so
the adapter defers with the diagnostic message and makes no network call. -/
theorem c3_queued_iff_endpoint_missing_witness :
    (post_to_platform env0 (HttpOutcome.urlError "unused") "baijiahao").status = "queued" ∧
    post_attempts_network env0 "baijiahao" = false := by
  have h := c3_queued_iff_endpoint_missing env0 (HttpOutcome.urlError "unused") "baijiahao"
  refine ⟨h.1.mpr (by decide), (h.2 (by decide)).1⟩

/-! ### Characterizing one `processPlatform` step -/

theorem alookup_aupsert_cases {β : Type} {m : List (String × β)} {k u : String} {v x : β}
    (h : alookup (aupsert m k v) u = some x) :
    (u = k ∧ x = v) ∨ (u ≠ k ∧ alookup m u = some x) := by
  by_cases hu : u = k
  · subst hu
    rw [alookup_aupsert_self] at h
    cases h
    exact Or.inl ⟨rfl, rfl⟩
  · rw [alookup_aupsert_ne m k u v hu] at h
    exact Or.inr ⟨hu, h⟩

theorem alookup_append_single_cases {β : Type} {m : List (String × β)} {k u : String} {v x : β}
    (h : alookup (m ++ [(k, v)]) u = some x) :
    alookup m u = some x ∨ (u = k ∧ x = v) := by
  cases hm : alookup m u with
  | some y =>
    rw [alookup_append_left [(k, v)] hm] at h
    have hx : y = x := Option.some.inj h
    subst hx
    exact Or.inl rfl
  | none =>
    by_cases hu : u = k
    · subst hu
      rw [alookup_append_single_self m u v ((alookup_none_iff m u).mp hm)] at h
      cases h
      exact Or.inr ⟨rfl, rfl⟩
    · rw [alookup_append_single_ne m k u v hu, hm] at h
      cases h

/-- The slot written by an attempt (lines 163-168). -/
def attemptedSlot (ctx : RunCtx) (calls : Nat) (attempts : Nat) : Slot :=
  { status := (ctx.adapter calls).status, last_attempt_at := ctx.attemptAt calls,
    attempts := attempts + 1, message := (ctx.adapter calls).message,
    http_code := (ctx.adapter calls).http_code }

theorem processPlatform_attempt_eq (ctx : RunCtx) (url : String) (payload : Payload)
    (st : RunState) (platform : String) (e0 : ItemEntry) (sl : Slot)
    (he : alookup st.items url = some e0)
    (hold : alookup e0.platforms platform = some sl)
    (hns : ¬ sl.status = "success") (hlt : sl.attempts < MAX_ATTEMPTS) :
    processPlatform ctx url payload st platform =
      { items := aupsert st.items url
          { e0 with platforms := (aupsert e0.platforms platform
              (attemptedSlot ctx st.calls sl.attempts)) },
        touched := st.touched + 1, calls := st.calls + 1,
        log := st.log ++ [⟨url, platform, payload⟩] } := by
  have hk : hasKey e0.platforms platform = true := alookup_some_hasKey hold
  unfold processPlatform
  rw [he]
  simp only [hk, if_true]
  simp only [hold]
  rw [if_neg hns, if_neg (Nat.not_le.mpr hlt)]
  rfl

theorem processPlatform_create_eq (ctx : RunCtx) (url : String) (payload : Payload)
    (st : RunState) (platform : String) (e0 : ItemEntry)
    (he : alookup st.items url = some e0)
    (hold : alookup e0.platforms platform = none) :
    processPlatform ctx url payload st platform =
      { items := (aupsert
          (aupsert st.items url { e0 with platforms := e0.platforms ++ [(platform, freshSlot)] })
          url
          { e0 with platforms := (aupsert (e0.platforms ++ [(platform, freshSlot)]) platform
              (attemptedSlot ctx st.calls 0)) }),
        touched := st.touched + 2, calls := st.calls + 1,
        log := st.log ++ [⟨url, platform, payload⟩] } := by
  have hk : hasKey e0.platforms platform = false := (alookup_none_iff _ _).mp hold
  have hfresh : alookup (e0.platforms ++ [(platform, freshSlot)]) platform = some freshSlot :=
    alookup_append_single_self _ _ _ hk
  unfold processPlatform
  rw [he]
  simp only [hk, Bool.false_eq_true, if_false]
  simp only [hfresh]
  rw [if_neg (show ¬ freshSlot.status = "success" by decide),
    if_neg (show ¬ MAX_ATTEMPTS ≤ freshSlot.attempts by decide)]
  rfl

theorem processPlatform_other_url (ctx : RunCtx) (url : String) (payload : Payload)
    (st : RunState) (platform : String) (u : String) (hu : u ≠ url) :
    alookup (processPlatform ctx url payload st platform).items u = alookup st.items u := by
  cases he : alookup st.items url with
  | none =>
    unfold processPlatform
    rw [he]
  | some e0 =>
    cases hold : alookup e0.platforms platform with
    | some sl =>
      by_cases hset : slotSettled sl
      · rw [processPlatform_settled_id ctx url payload st platform e0 sl he hold hset]
      · unfold slotSettled at hset
        push_neg at hset
        rw [processPlatform_attempt_eq ctx url payload st platform e0 sl he hold
          hset.1 hset.2]
        exact alookup_aupsert_ne _ _ _ _ hu
    | none =>
      rw [processPlatform_create_eq ctx url payload st platform e0 he hold]
      simp only [show ∀ (m : List (String × ItemEntry)) v, alookup (aupsert m url v) u = alookup m u
        from fun m v => alookup_aupsert_ne m url u v hu]

/-! ### Per-run invariants -/

/-- Equality of everything in a url entry except its platform slots. -/
def sameMeta (a b : ItemEntry) : Prop :=
  a.title = b.title ∧ a.source = b.source ∧ a.date = b.date ∧
  a.file = b.file ∧ a.created_at = b.created_at

theorem sameMeta_refl (a : ItemEntry) : sameMeta a a := ⟨rfl, rfl, rfl, rfl, rfl⟩

theorem sameMeta_platforms (a : ItemEntry) (pl : List (String × Slot)) :
    sameMeta { a with platforms := pl } a := ⟨rfl, rfl, rfl, rfl, rfl⟩

theorem sameMeta_trans {a b c : ItemEntry} (h1 : sameMeta a b) (h2 : sameMeta b c) :
    sameMeta a c :=
  ⟨h1.1.trans h2.1, h1.2.1.trans h2.2.1, h1.2.2.1.trans h2.2.2.1,
   h1.2.2.2.1.trans h2.2.2.2.1, h1.2.2.2.2.trans h2.2.2.2.2⟩

/-- Metadata frame of a single platform step: the entry tracked at `u`
keeps its non-platform fields. -/
theorem processPlatform_meta (ctx : RunCtx) (url : String) (payload : Payload)
    (st : RunState) (platform : String) (u : String) (e : ItemEntry)
    (h : ∃ e2, alookup st.items u = some e2 ∧ sameMeta e2 e) :
    ∃ e2, alookup (processPlatform ctx url payload st platform).items u = some e2 ∧
      sameMeta e2 e := by
  obtain ⟨e2, he2, hm⟩ := h
  by_cases hu : u = url
  · subst hu
    cases hold : alookup e2.platforms platform with
    | some sl =>
      by_cases hset : slotSettled sl
      · rw [processPlatform_settled_id ctx u payload st platform e2 sl he2 hold hset]
        exact ⟨e2, he2, hm⟩
      · unfold slotSettled at hset
        push_neg at hset
        rw [processPlatform_attempt_eq ctx u payload st platform e2 sl he2 hold hset.1 hset.2]
        refine ⟨_, alookup_aupsert_self _ _ _, ?_⟩
        exact sameMeta_trans (sameMeta_platforms e2 _) hm
    | none =>
      rw [processPlatform_create_eq ctx u payload st platform e2 he2 hold]
      refine ⟨_, alookup_aupsert_self _ _ _, ?_⟩
      exact sameMeta_trans (sameMeta_platforms e2 _) hm
  · rw [processPlatform_other_url ctx url payload st platform u hu]
    exact ⟨e2, he2, hm⟩

/-- Frame of a single platform step for a settled slot: it is left exactly
as it was. -/
theorem processPlatform_slot_frame (ctx : RunCtx) (url : String) (payload : Payload)
    (st : RunState) (platform : String) (u p : String) (sl0 : Slot)
    (hset : slotSettled sl0)
    (h : ∃ e, alookup st.items u = some e ∧ alookup e.platforms p = some sl0) :
    ∃ e, alookup (processPlatform ctx url payload st platform).items u = some e ∧
      alookup e.platforms p = some sl0 := by
  obtain ⟨e, he, hsl⟩ := h
  by_cases hu : u = url
  · subst hu
    cases hold : alookup e.platforms platform with
    | some sl =>
      by_cases hsets : slotSettled sl
      · rw [processPlatform_settled_id ctx u payload st platform e sl he hold hsets]
        exact ⟨e, he, hsl⟩
      · unfold slotSettled at hsets
        push_neg at hsets
        rw [processPlatform_attempt_eq ctx u payload st platform e sl he hold hsets.1 hsets.2]
        refine ⟨_, alookup_aupsert_self _ _ _, ?_⟩
        have hpne : p ≠ platform := by
          intro hpp
          subst hpp
          rw [hold] at hsl
          cases hsl
          exact (hsets.1 (hset.resolve_right (Nat.not_le.mpr hsets.2))).elim
        show alookup (aupsert e.platforms platform (attemptedSlot ctx st.calls sl.attempts)) p =
          some sl0
        rw [alookup_aupsert_ne _ _ _ _ hpne]
        exact hsl
    | none =>
      have hpne : p ≠ platform := by
        intro hpp
        subst hpp
        rw [hold] at hsl
        cases hsl
      rw [processPlatform_create_eq ctx u payload st platform e he hold]
      refine ⟨_, alookup_aupsert_self _ _ _, ?_⟩
      show alookup (aupsert (e.platforms ++ [(platform, freshSlot)]) platform
        (attemptedSlot ctx st.calls 0)) p = some sl0
      rw [alookup_aupsert_ne _ _ _ _ hpne]
      exact alookup_append_left _ hsl
  · rw [processPlatform_other_url ctx url payload st platform u hu]
    exact ⟨e, he, hsl⟩

/-- All attempts counters in an items mapping are within the cap. -/
def wfItems (items : List (String × ItemEntry)) : Prop :=
  ∀ u e p sl, alookup items u = some e → alookup e.platforms p = some sl →
    sl.attempts ≤ MAX_ATTEMPTS

theorem processPlatform_wf (ctx : RunCtx) (url : String) (payload : Payload)
    (st : RunState) (platform : String)
    (h : wfItems st.items) : wfItems (processPlatform ctx url payload st platform).items := by
  cases he : alookup st.items url with
  | none =>
    unfold processPlatform
    rw [he]
    exact h
  | some e0 =>
    cases hold : alookup e0.platforms platform with
    | some sl =>
      by_cases hset : slotSettled sl
      · rw [processPlatform_settled_id ctx url payload st platform e0 sl he hold hset]
        exact h
      · unfold slotSettled at hset
        push_neg at hset
        rw [processPlatform_attempt_eq ctx url payload st platform e0 sl he hold hset.1 hset.2]
        intro u e p sl2 hu hp
        rcases alookup_aupsert_cases hu with ⟨hu1, hu2⟩ | ⟨_, hu2⟩
        · subst hu2
          rcases alookup_aupsert_cases hp with ⟨hp1, hp2⟩ | ⟨_, hp2⟩
          · subst hp2
            exact Nat.succ_le_of_lt hset.2
          · exact h url e0 p sl2 he hp2
        · exact h u e p sl2 hu2 hp
    | none =>
      rw [processPlatform_create_eq ctx url payload st platform e0 he hold]
      intro u e p sl2 hu hp
      rcases alookup_aupsert_cases hu with ⟨hu1, hu2⟩ | ⟨hune, hu2⟩
      · subst hu2
        rcases alookup_aupsert_cases hp with ⟨hp1, hp2⟩ | ⟨_, hp2⟩
        · subst hp2
          exact Nat.succ_le_of_lt (by decide)
        · rcases alookup_append_single_cases hp2 with hp3 | ⟨_, hp3⟩
          · exact h url e0 p sl2 he hp3
          · subst hp3
            decide
      · rcases alookup_aupsert_cases hu2 with ⟨hu3, hu4⟩ | ⟨_, hu4⟩
        · exact absurd hu3 hune
        · exact h u e p sl2 hu4 hp

/-- The log grows only by records of the processed url carrying the payload
the item loop computed. -/
theorem processPlatform_log (ctx : RunCtx) (url : String) (payload : Payload)
    (st : RunState) (platform : String) :
    (processPlatform ctx url payload st platform).log = st.log ∨
    (processPlatform ctx url payload st platform).log =
      st.log ++ [⟨url, platform, payload⟩] := by
  cases he : alookup st.items url with
  | none =>
    unfold processPlatform
    rw [he]
    exact Or.inl rfl
  | some e0 =>
    cases hold : alookup e0.platforms platform with
    | some sl =>
      by_cases hset : slotSettled sl
      · rw [processPlatform_settled_id ctx url payload st platform e0 sl he hold hset]
        exact Or.inl rfl
      · unfold slotSettled at hset
        push_neg at hset
        rw [processPlatform_attempt_eq ctx url payload st platform e0 sl he hold hset.1 hset.2]
        exact Or.inr rfl
    | none =>
      rw [processPlatform_create_eq ctx url payload st platform e0 he hold]
      exact Or.inr rfl

/-- Generic preservation through one queue item: any state property closed
under a platform step and under appending a fresh url entry survives
`processItem`. -/
theorem processItem_preserve {P : RunState → Prop}
    (hPP : ∀ ctx url payload st platform, P st → P (processPlatform ctx url payload st platform))
    (hAdd : ∀ (st : RunState) (k : String) (nw : String) (it : QItem), P st →
      P { st with items := st.items ++ [(k, freshEntry nw it)] })
    (ctx : RunCtx) (now : String) (st : RunState) (item : QItem) (h : P st) :
    P (processItem ctx now st item) := by
  unfold processItem
  by_cases hb : pyStrip item.url = ""
  · rw [if_pos hb]
    exact h
  · rw [if_neg hb]
    by_cases hk : hasKey st.items (pyStrip item.url) = true
    · simp only [hk, if_true]
      cases hm : alookup st.items (pyStrip item.url) with
      | none =>
        simp only [hm]
        exact h
      | some e3 =>
        simp only [hm]
        exact foldl_preserve (fun s p _ hp => hPP ctx _ _ s p hp) h
    · have hk2 : hasKey st.items (pyStrip item.url) = false := Bool.eq_false_iff.mpr hk
      simp only [hk2, Bool.false_eq_true, if_false]
      have hst1 : P { st with items := st.items ++ [(pyStrip item.url, freshEntry now item)] } :=
        hAdd st _ now item h
      cases hm : alookup (st.items ++ [(pyStrip item.url, freshEntry now item)])
          (pyStrip item.url) with
      | none =>
        simp only [hm]
        exact hst1
      | some e3 =>
        simp only [hm]
        exact foldl_preserve (fun s p _ hp => hPP ctx _ _ s p hp) hst1

theorem processItem_meta (ctx : RunCtx) (now : String) (st : RunState) (item : QItem)
    (u : String) (e : ItemEntry)
    (h : ∃ e2, alookup st.items u = some e2 ∧ sameMeta e2 e) :
    ∃ e2, alookup (processItem ctx now st item).items u = some e2 ∧ sameMeta e2 e := by
  refine processItem_preserve (fun ctx2 url payload st2 platform hp =>
    processPlatform_meta ctx2 url payload st2 platform u e hp) ?_ ctx now st item h
  intro st2 k nw it hp
  obtain ⟨e2, he2, hm⟩ := hp
  exact ⟨e2, alookup_append_left _ he2, hm⟩

theorem processItem_slot_frame (ctx : RunCtx) (now : String) (st : RunState) (item : QItem)
    (u p : String) (sl0 : Slot) (hset : slotSettled sl0)
    (h : ∃ e, alookup st.items u = some e ∧ alookup e.platforms p = some sl0) :
    ∃ e, alookup (processItem ctx now st item).items u = some e ∧
      alookup e.platforms p = some sl0 := by
  refine processItem_preserve (fun ctx2 url payload st2 platform hp =>
    processPlatform_slot_frame ctx2 url payload st2 platform u p sl0 hset hp) ?_ ctx now st item h
  intro st2 k nw it hp
  obtain ⟨e2, he2, hsl⟩ := hp
  exact ⟨e2, alookup_append_left _ he2, hsl⟩

theorem processItem_wf (ctx : RunCtx) (now : String) (st : RunState) (item : QItem)
    (h : wfItems st.items) : wfItems (processItem ctx now st item).items := by
  refine processItem_preserve (fun ctx2 url payload st2 platform hp =>
    processPlatform_wf ctx2 url payload st2 platform hp) ?_ ctx now st item h
  intro st2 k nw it hp
  intro u e p sl hu hp2
  rcases alookup_append_single_cases hu with hu2 | ⟨_, hu2⟩
  · exact hp u e p sl hu2 hp2
  · subst hu2
    cases hp2

/-- Every adapter call recorded for url `u` carried payload `pay0`. -/
def logOK (u : String) (pay0 : Payload) (st : RunState) : Prop :=
  ∀ r ∈ st.log, r.url = u → r.payload = pay0

theorem processPlatform_logOK (ctx : RunCtx) (url : String) (payload : Payload)
    (st : RunState) (platform : String) (u : String) (pay0 : Payload)
    (hpay : url = u → payload = pay0) (h : logOK u pay0 st) :
    logOK u pay0 (processPlatform ctx url payload st platform) := by
  rcases processPlatform_log ctx url payload st platform with hl | hl <;>
    unfold logOK <;> rw [hl]
  · exact h
  · intro r hr hru
    rcases List.mem_append.mp hr with hr2 | hr2
    · exact h r hr2 hru
    · rw [List.mem_singleton] at hr2
      subst hr2
      exact hpay hru

theorem processItem_logmeta (ctx : RunCtx) (now : String) (st : RunState) (item : QItem)
    (u : String) (e : ItemEntry)
    (h : logOK u (build_payload e.title u e.source e.date e.file) st ∧
      (∃ e2, alookup st.items u = some e2 ∧ sameMeta e2 e)) :
    logOK u (build_payload e.title u e.source e.date e.file) (processItem ctx now st item) ∧
      (∃ e2, alookup (processItem ctx now st item).items u = some e2 ∧ sameMeta e2 e) := by
  refine ⟨?_, processItem_meta ctx now st item u e h.2⟩
  unfold processItem
  by_cases hb : pyStrip item.url = ""
  · rw [if_pos hb]
    exact h.1
  · rw [if_neg hb]
    have hmeta1 : ∃ e2, alookup (if hasKey st.items (pyStrip item.url) = true then st
        else { st with items := st.items ++ [(pyStrip item.url, freshEntry now item)] }).items
        u = some e2 ∧ sameMeta e2 e := by
      by_cases hk : hasKey st.items (pyStrip item.url) = true
      · rw [if_pos hk]
        exact h.2
      · rw [if_neg hk]
        obtain ⟨e2, he2, hm⟩ := h.2
        exact ⟨e2, alookup_append_left _ he2, hm⟩
    have hlog1 : logOK u (build_payload e.title u e.source e.date e.file)
        (if hasKey st.items (pyStrip item.url) = true then st
        else { st with items := st.items ++ [(pyStrip item.url, freshEntry now item)] }) := by
      by_cases hk : hasKey st.items (pyStrip item.url) = true
      · rw [if_pos hk]
        exact h.1
      · rw [if_neg hk]
        exact h.1
    by_cases hk : hasKey st.items (pyStrip item.url) = true
    · simp only [hk, if_true]
      rw [if_pos hk] at hmeta1 hlog1
      cases hm : alookup st.items (pyStrip item.url) with
      | none =>
        simp only [hm]
        exact hlog1
      | some e3 =>
        simp only [hm]
        have hpay : pyStrip item.url = u →
            build_payload e3.title (pyStrip item.url) e3.source e3.date e3.file =
            build_payload e.title u e.source e.date e.file := by
          intro hequ
          obtain ⟨e2, he2, hsm⟩ := hmeta1
          rw [hequ] at hm
          rw [hm] at he2
          have he3 : e3 = e2 := Option.some.inj he2
          subst he3
          rw [hequ, hsm.1, hsm.2.1, hsm.2.2.1, hsm.2.2.2.1]
        refine foldl_preserve (P := logOK u (build_payload e.title u e.source e.date e.file))
          (fun s p _ hp => processPlatform_logOK ctx _ _ s p u _ ?_ hp) hlog1
        intro hequ
        exact hpay hequ
    · have hk2 : hasKey st.items (pyStrip item.url) = false := Bool.eq_false_iff.mpr hk
      simp only [hk2, Bool.false_eq_true, if_false]
      rw [if_neg hk] at hmeta1 hlog1
      cases hm : alookup (st.items ++ [(pyStrip item.url, freshEntry now item)])
          (pyStrip item.url) with
      | none =>
        simp only [hm]
        exact hlog1
      | some e3 =>
        simp only [hm]
        have hpay : pyStrip item.url = u →
            build_payload e3.title (pyStrip item.url) e3.source e3.date e3.file =
            build_payload e.title u e.source e.date e.file := by
          intro hequ
          obtain ⟨e2, he2, hsm⟩ := hmeta1
          simp only at he2
          rw [hequ] at hm he2
          rw [hm] at he2
          have he3 : e3 = e2 := Option.some.inj he2
          subst he3
          rw [hequ, hsm.1, hsm.2.1, hsm.2.2.1, hsm.2.2.2.1]
        refine foldl_preserve (P := logOK u (build_payload e.title u e.source e.date e.file))
          (fun s p _ hp => processPlatform_logOK ctx _ _ s p u _ ?_ hp) hlog1
        intro hequ
        exact hpay hequ

/-! ### Run-level and multi-run invariants -/

theorem runStates_meta (ctx : RunCtx) (now : String) (queue : List QItem)
    (items0 : List (String × ItemEntry)) (u : String) (e : ItemEntry)
    (h : ∃ e2, alookup items0 u = some e2 ∧ sameMeta e2 e) :
    ∃ e2, alookup (runStates ctx now queue items0).items u = some e2 ∧ sameMeta e2 e :=
  foldl_preserve (fun s it _ hp => processItem_meta ctx now s it u e hp) h

theorem runStates_slot_frame (ctx : RunCtx) (now : String) (queue : List QItem)
    (items0 : List (String × ItemEntry)) (u p : String) (sl0 : Slot) (hset : slotSettled sl0)
    (h : ∃ e, alookup items0 u = some e ∧ alookup e.platforms p = some sl0) :
    ∃ e, alookup (runStates ctx now queue items0).items u = some e ∧
      alookup e.platforms p = some sl0 :=
  foldl_preserve (fun s it _ hp => processItem_slot_frame ctx now s it u p sl0 hset hp) h

theorem runStates_wf (ctx : RunCtx) (now : String) (queue : List QItem)
    (items0 : List (String × ItemEntry)) (h : wfItems items0) :
    wfItems (runStates ctx now queue items0).items :=
  foldl_preserve (fun s it _ hp => processItem_wf ctx now s it hp) h

theorem runStates_log (ctx : RunCtx) (now : String) (queue : List QItem)
    (items0 : List (String × ItemEntry)) (u : String) (e : ItemEntry)
    (h : ∃ e2, alookup items0 u = some e2 ∧ sameMeta e2 e) :
    ∀ r ∈ (runStates ctx now queue items0).log, r.url = u →
      r.payload = build_payload e.title u e.source e.date e.file := by
  have hinv := foldl_preserve
    (P := fun s => logOK u (build_payload e.title u e.source e.date e.file) s ∧
      (∃ e2, alookup s.items u = some e2 ∧ sameMeta e2 e))
    (l := queue)
    (s := (⟨items0, 0, 0, []⟩ : RunState))
    (fun s it _ hp => processItem_logmeta ctx now s it u e hp)
    ⟨fun r hr _ => absurd hr (List.not_mem_nil r), h⟩
  exact hinv.1

theorem runDispatch_meta (ctx : RunCtx) (now endAt : String) (queue : List QItem)
    (prior : DispatchStatus) (u : String) (e : ItemEntry)
    (h : ∃ e2, alookup prior.items u = some e2 ∧ sameMeta e2 e) :
    ∃ e2, alookup (runDispatch ctx now endAt queue prior).items u = some e2 ∧ sameMeta e2 e := by
  unfold runDispatch
  by_cases ht : (runStates ctx now queue prior.items).touched = 0
  · rw [if_pos ht]
    exact h
  · rw [if_neg ht]
    exact runStates_meta ctx now queue prior.items u e h

theorem runDispatch_slot_frame (ctx : RunCtx) (now endAt : String) (queue : List QItem)
    (prior : DispatchStatus) (u p : String) (sl0 : Slot) (hset : slotSettled sl0)
    (h : ∃ e, alookup prior.items u = some e ∧ alookup e.platforms p = some sl0) :
    ∃ e, alookup (runDispatch ctx now endAt queue prior).items u = some e ∧
      alookup e.platforms p = some sl0 := by
  unfold runDispatch
  by_cases ht : (runStates ctx now queue prior.items).touched = 0
  · rw [if_pos ht]
    exact h
  · rw [if_neg ht]
    exact runStates_slot_frame ctx now queue prior.items u p sl0 hset h

theorem runDispatch_wf (ctx : RunCtx) (now endAt : String) (queue : List QItem)
    (prior : DispatchStatus) (h : wfItems prior.items) :
    wfItems (runDispatch ctx now endAt queue prior).items := by
  unfold runDispatch
  by_cases ht : (runStates ctx now queue prior.items).touched = 0
  · rw [if_pos ht]
    exact h
  · rw [if_neg ht]
    exact runStates_wf ctx now queue prior.items h

theorem runSeq_meta (specs : List RunSpec) (st : DispatchStatus) (u : String) (e : ItemEntry)
    (h : ∃ e2, alookup st.items u = some e2 ∧ sameMeta e2 e) :
    ∃ e2, alookup (runSeq specs st).items u = some e2 ∧ sameMeta e2 e :=
  foldl_preserve (fun s sp _ hp => runDispatch_meta sp.ctx sp.now sp.endAt sp.queue s u e hp) h

theorem runSeq_slot_frame (specs : List RunSpec) (st : DispatchStatus) (u p : String)
    (sl0 : Slot) (hset : slotSettled sl0)
    (h : ∃ e, alookup st.items u = some e ∧ alookup e.platforms p = some sl0) :
    ∃ e, alookup (runSeq specs st).items u = some e ∧ alookup e.platforms p = some sl0 :=
  foldl_preserve
    (fun s sp _ hp => runDispatch_slot_frame sp.ctx sp.now sp.endAt sp.queue s u p sl0 hset hp) h

theorem runSeq_wf (specs : List RunSpec) (st : DispatchStatus) (h : wfItems st.items) :
    wfItems (runSeq specs st).items :=
  foldl_preserve (fun s sp _ hp => runDispatch_wf sp.ctx sp.now sp.endAt sp.queue s hp) h

/-- C2: dispatch monotonicity over any sequence of runs. A slot at
`success`, or at the attempt cap without success, is never modified again —
every one of its fields survives every later run unchanged — and the
attempts counter never exceeds `MAX_ATTEMPTS = 3` (runs preserve the cap
invariant). -/
theorem c2_dispatch_monotonicity (specs : List RunSpec) (st : DispatchStatus) :
    (∀ u p e sl, alookup st.items u = some e → alookup e.platforms p = some sl →
      (sl.status = "success" ∨ (sl.attempts = MAX_ATTEMPTS ∧ ¬ sl.status = "success")) →
      ∃ e2, alookup (runSeq specs st).items u = some e2 ∧ alookup e2.platforms p = some sl) ∧
    (wfItems st.items → wfItems (runSeq specs st).items) := by
  constructor
  · intro u p e sl he hsl hcond
    have hset : slotSettled sl := by
      rcases hcond with hs | ⟨hc, _⟩
      · exact Or.inl hs
      · exact Or.inr (Nat.le_of_eq hc.symm)
    exact runSeq_slot_frame specs st u p sl hset ⟨e, he, hsl⟩
  · exact runSeq_wf specs st

/-- C9: once a url entry exists, its stored metadata (title, source, date,
file, created_at) is never updated by any later run, and the payload of
every adapter call ever made for that url is built from that frozen
metadata, not from the current queue item. -/
theorem c9_item_metadata_frozen (specs : List RunSpec) (st : DispatchStatus)
    (u : String) (e : ItemEntry) (he : alookup st.items u = some e) :
    (∃ e2, alookup (runSeq specs st).items u = some e2 ∧ sameMeta e2 e) ∧
    (∀ ctx now queue r, r ∈ (runStates ctx now queue (runSeq specs st).items).log →
      r.url = u → r.payload = build_payload e.title u e.source e.date e.file) := by
  have hmeta : ∃ e2, alookup (runSeq specs st).items u = some e2 ∧ sameMeta e2 e :=
    runSeq_meta specs st u e ⟨e, he, sameMeta_refl e⟩
  refine ⟨hmeta, ?_⟩
  intro ctx now queue r hr hru
  exact runStates_log ctx now queue (runSeq specs st).items u e hmeta r hr hru

def w2Slot : Slot := ⟨"success", "t1", 1, "ok", some 200⟩

def w2Entry : ItemEntry :=
  ⟨"T", "S", "d", "f",
    [("baijiahao", ⟨"failed", "t2", 3, "no", some 500⟩), ("toutiao", w2Slot)], "c0"⟩

def w2St : DispatchStatus := ⟨[("u", w2Entry)], "t0"⟩

def w2Spec : RunSpec :=
  ⟨⟨fun _ => ⟨"success", "ok", some 200⟩, fun _ => "t3"⟩, "n1", "e1", [⟨"T", "u", "S", "d", "f"⟩]⟩

/-- C2 witness: over a concrete run, the successful toutiao slot survives
unchanged and the whole state keeps the attempts cap. -/
theorem c2_dispatch_monotonicity_witness :
    (∃ e2, alookup (runSeq [w2Spec] w2St).items "u" = some e2 ∧
      alookup e2.platforms "toutiao" = some ⟨"success", "t1", 1, "ok", some 200⟩) ∧
    wfItems (runSeq [w2Spec] w2St).items := by
  have h := c2_dispatch_monotonicity [w2Spec] w2St
  constructor
  · exact h.1 "u" "toutiao" w2Entry w2Slot (by decide) (by decide) (Or.inl (by decide))
  · apply h.2
    intro u e p sl h1 h2
    have hm := alookup_mem h1
    rw [show w2St.items = [("u", w2Entry)] from rfl, List.mem_singleton] at hm
    have he : e = w2Entry := congrArg Prod.snd hm
    subst he
    have hm2 := alookup_mem h2
    rw [show w2Entry.platforms =
      [("baijiahao", ⟨"failed", "t2", 3, "no", some 500⟩), ("toutiao", w2Slot)] from rfl] at hm2
    rcases List.mem_cons.mp hm2 with h3 | h3
    · have hsl : sl = ⟨"failed", "t2", 3, "no", some 500⟩ := congrArg Prod.snd h3
      rw [hsl]
      decide
    · rw [List.mem_singleton] at h3
      have hsl : sl = w2Slot := congrArg Prod.snd h3
      rw [hsl]
      decide

def w9Spec : RunSpec :=
  ⟨⟨fun _ => ⟨"failed", "err", some 500⟩, fun _ => "t3"⟩, "n1", "e1",
    [⟨"NEW TITLE", "u", "S2", "d2", "f2"⟩]⟩

/-- C9 witness: a later run whose queue item carries changed metadata for
the same url leaves the stored entry's metadata intact, and all logged
payloads for that url use the stored metadata. -/
theorem c9_item_metadata_frozen_witness :
    (∃ e2, alookup (runSeq [w9Spec] w2St).items "u" = some e2 ∧ sameMeta e2 w2Entry) ∧
    (∀ ctx now queue r, r ∈ (runStates ctx now queue (runSeq [w9Spec] w2St).items).log →
      r.url = "u" →
      r.payload = build_payload w2Entry.title "u" w2Entry.source w2Entry.date w2Entry.file) :=
  c9_item_metadata_frozen [w9Spec] w2St "u" w2Entry (by decide)

/-! ### `scripts/fetch_douban.py` — poster cascade and image validator

Network responses are oracles per url; the sha1-derived local name is an
oracle `sha20` (20 hex chars of `hashlib.sha1(candidate).hexdigest()`). -/

/-- Outcome of the GET in `fetch_image_bytes` / `image_url_ok` (lines 47-54,
326-346): a response, or a raised `HTTPError`/`URLError`/`ValueError`. -/
inductive ImgFetchOutcome where
  | resp (code : Int) (contentType : String) (data : List UInt8)
  | err
deriving DecidableEq

/-- Lines 326-346: the fetch-and-validate step of the cascade. -/
def fetch_image_bytes (net : String → ImgFetchOutcome) (url : String) :
    List UInt8 × String :=
  match net url with
  | .err => ([], "")
  | .resp code ct data =>
    let ctl := pyLower ct
    if ¬ (200 ≤ code ∧ code < 400) then ([], "")
    else if ctl ≠ "" ∧ ¬ strContains ctl "image" then ([], "")
    else if data = [] then ([], "")
    else (data, ctl)

/-- Outcome of the HEAD request in `image_url_ok` (lines 38-45); the `except`
there swallows every failure. -/
inductive HeadOutcome where
  | resp (code : Int)
  | err
deriving DecidableEq

/-- The HEAD block of `image_url_ok` (lines 38-45): did the lightweight probe
report success? -/
def head_probe_ok : HeadOutcome → Bool
  | .resp code => decide (200 ≤ code ∧ code < 400)
  | .err => false

/-- Lines 35-54: `image_url_ok`, never invoked by the cascade. -/
def image_url_ok (head : HeadOutcome) (get : ImgFetchOutcome) : Bool :=
  if head_probe_ok head then true
  else
    match get with
    | .resp code ct _ =>
      decide (200 ≤ code ∧ code < 400) &&
        (strContains (pyLower ct) "image" || pyLower ct == "")
    | .err => false

/-- Lines 310-323. -/
def guess_image_ext (url contentType : String) : String :=
  let lowerUrl := pyLower url
  if strContains lowerUrl ".jpg" then ".jpg"
  else if strContains lowerUrl ".jpeg" then ".jpeg"
  else if strContains lowerUrl ".png" then ".png"
  else if strContains lowerUrl ".webp" then ".webp"
  else if strContains lowerUrl ".gif" then ".gif"
  else if strContains lowerUrl ".avif" then ".avif"
  else
    let ct := pyLower contentType
    if strContains ct "png" then ".png"
    else if strContains ct "webp" then ".webp"
    else if strContains ct "gif" then ".gif"
    else ".jpg"

/-- The `.webp` rewrites of lines 59-62. -/
def webpVariants (url : String) : List String :=
  if strEndsWith url ".webp" then
    [strDropRight 5 url ++ ".jpg", strDropRight 5 url ++ ".jpeg", strDropRight 5 url ++ ".png"]
  else []

/-- Group 3 of `re.match(r"(https://img)(\d)(\.doubanio\.com/.+)", url)`:
`.​+` is one or more non-newline characters, anchored after the host digit. -/
def doubanSuffix (url : String) : Option String :=
  let l := url.toList
  if l.take 11 = "https://img".toList then
    match l.drop 11 with
    | [] => none
    | d :: rest =>
      if d.isDigit ∧ rest.take 14 = ".doubanio.com/".toList then
        let body := (rest.drop 14).takeWhile (fun c => ¬ c = '\n')
        if body = [] then none
        else some (String.mk (rest.take 14 ++ body))
      else none
  else none

/-- The numbered-host rewrites of lines 64-72. -/
def hostVariants (url : String) : List String :=
  match doubanSuffix url with
  | none => []
  | some suffix =>
    (List.range' 1 9).flatMap (fun i =>
      let h := "https://img" ++ toString i ++ suffix
      h :: (if strEndsWith h ".webp" then [strDropRight 5 h ++ ".jpg"] else []))

/-- The dedup loop of lines 73-79: keep first occurrences, never the
original url itself. -/
def dedupExcl (excl : String) : List String → List String → List String
  | _, [] => []
  | seen, x :: rest =>
    if x ∉ seen ∧ x ≠ excl then x :: dedupExcl excl (x :: seen) rest
    else dedupExcl excl seen rest

/-- Lines 57-79: `replacement_candidates`. -/
def replacement_candidates (url : String) : List String :=
  dedupExcl url [] (webpVariants url ++ hostVariants url)

/-- The dedup loop of lines 357-362: keep first occurrences of non-empty
candidates. -/
def dedupNonempty : List String → List String → List String
  | _, [] => []
  | seen, x :: rest =>
    if x ≠ "" ∧ x ∉ seen then x :: dedupNonempty (x :: seen) rest
    else dedupNonempty seen rest

/-- Lines 350-362: the ordered deduplicated candidate list. `pageCands` and
`searchCands` stand for `candidates_from_source_page(source_link)` and
`candidates_from_web_search(title)`, both network scrapers. -/
def poster_candidates (pageCands searchCands : List String) (original_url : String) :
    List String :=
  dedupNonempty []
    ((if original_url ≠ "" then original_url :: replacement_candidates original_url else []) ++
      pageCands ++ searchCands)

/-- Lines 364-377: try candidates in order; first fetch with a non-empty
payload wins and is stored content-addressed. -/
def posterLoop (net : String → ImgFetchOutcome) (sha20 : String → String) :
    List String → String
  | [] => ""
  | c :: rest =>
    if (fetch_image_bytes net c).1 = [] then posterLoop net sha20 rest
    else "/posters/" ++ sha20 c ++ guess_image_ext c (fetch_image_bytes net c).2

/-- Lines 349-377: `ensure_local_poster`. -/
def ensure_local_poster (net : String → ImgFetchOutcome) (sha20 : String → String)
    (pageCands searchCands : List String) (original_url : String) : String :=
  posterLoop net sha20 (poster_candidates pageCands searchCands original_url)

theorem posterLoop_cons (net : String → ImgFetchOutcome) (sha20 : String → String)
    (c : String) (rest : List String) :
    posterLoop net sha20 (c :: rest) =
      if (fetch_image_bytes net c).1 = [] then posterLoop net sha20 rest
      else "/posters/" ++ sha20 c ++ guess_image_ext c (fetch_image_bytes net c).2 := rfl

theorem posterLoop_all_fail (net : String → ImgFetchOutcome) (sha20 : String → String) :
    ∀ l : List String, (∀ x ∈ l, (fetch_image_bytes net x).1 = []) →
      posterLoop net sha20 l = "" := by
  intro l
  induction l with
  | nil => intro _; rfl
  | cons c rest ih =>
    intro h
    rw [posterLoop_cons, if_pos (h c (List.mem_cons_self c rest))]
    exact ih (fun x hx => h x (List.mem_cons_of_mem c hx))

theorem posterLoop_skip_failures (net : String → ImgFetchOutcome) (sha20 : String → String) :
    ∀ pre l : List String, (∀ x ∈ pre, (fetch_image_bytes net x).1 = []) →
      posterLoop net sha20 (pre ++ l) = posterLoop net sha20 l := by
  intro pre
  induction pre with
  | nil => intro l _; rfl
  | cons c rest ih =>
    intro l h
    rw [List.cons_append, posterLoop_cons, if_pos (h c (List.mem_cons_self c rest))]
    exact ih l (fun x hx => h x (List.mem_cons_of_mem c hx))

/-- C4: the cascade inspects the ordered deduplicated candidate list
strictly in order; the first candidate whose fetch validates determines the
returned artifact (no later candidate is ever preferred), and exhaustion
returns the empty reference without error. -/
theorem c4_poster_cascade_first_success (net : String → ImgFetchOutcome)
    (sha20 : String → String) (pageCands searchCands : List String) (original_url : String) :
    (∀ pre c post, poster_candidates pageCands searchCands original_url = pre ++ c :: post →
      (∀ x ∈ pre, (fetch_image_bytes net x).1 = []) →
      (fetch_image_bytes net c).1 ≠ [] →
      ensure_local_poster net sha20 pageCands searchCands original_url =
        "/posters/" ++ sha20 c ++ guess_image_ext c (fetch_image_bytes net c).2) ∧
    ((∀ x ∈ poster_candidates pageCands searchCands original_url,
        (fetch_image_bytes net x).1 = []) →
      ensure_local_poster net sha20 pageCands searchCands original_url = "") := by
  constructor
  · intro pre c post hsplit hpre hc
    unfold ensure_local_poster
    rw [hsplit, posterLoop_skip_failures net sha20 pre (c :: post) hpre,
      posterLoop_cons, if_neg hc]
  · intro hall
    exact posterLoop_all_fail net sha20 _ hall

/-- C4 witness: the first candidate 404s, the second validates and is
returned; a network where everything fails yields the empty reference. -/
theorem c4_poster_cascade_first_success_witness :
    ensure_local_poster
      (fun u => if u = "x1" then ImgFetchOutcome.resp 404 "" [7]
        else if u = "x2" then ImgFetchOutcome.resp 200 "image/jpeg" [9]
        else ImgFetchOutcome.err)
      (fun _ => "h") ["x1", "x2"] [] "" = "/posters/h.jpg" ∧
    ensure_local_poster (fun _ => ImgFetchOutcome.err) (fun _ => "h") ["x1"] [] "" = "" := by
  constructor
  · have h := (c4_poster_cascade_first_success
      (fun u => if u = "x1" then ImgFetchOutcome.resp 404 "" [7]
        else if u = "x2" then ImgFetchOutcome.resp 200 "image/jpeg" [9]
        else ImgFetchOutcome.err)
      (fun _ => "h") ["x1", "x2"] [] "").1 ["x1"] "x2" []
      (by decide) (by decide) (by decide)
    rw [h]
    decide
  · exact (c4_poster_cascade_first_success (fun _ => ImgFetchOutcome.err)
      (fun _ => "h") ["x1"] [] "").2 (by decide)

/-! ### C6: the image validator -/

theorem fetch_image_resp_iff (net : String → ImgFetchOutcome) (url : String)
    (code : Int) (ct : String) (data : List UInt8)
    (h : net url = ImgFetchOutcome.resp code ct data) :
    ((fetch_image_bytes net url).1 ≠ [] ↔
      (200 ≤ code ∧ code < 400) ∧
      (pyLower ct = "" ∨ strContains (pyLower ct) "image" = true) ∧ data ≠ []) := by
  simp only [fetch_image_bytes, h]
  by_cases h1 : 200 ≤ code ∧ code < 400
  · rw [if_neg (not_not_intro h1)]
    by_cases h2 : pyLower ct ≠ "" ∧ ¬ strContains (pyLower ct) "image" = true
    · rw [if_pos h2]
      constructor
      · intro hr
        exact absurd rfl hr
      · rintro ⟨_, hor, _⟩
        rcases hor with hor | hor
        · exact absurd hor h2.1
        · exact absurd hor h2.2
    · rw [if_neg h2]
      by_cases h3 : data = []
      · rw [if_pos h3]
        constructor
        · intro hr
          exact absurd rfl hr
        · rintro ⟨_, _, hd⟩
          exact absurd h3 hd
      · rw [if_neg h3]
        constructor
        · intro _
          push_neg at h2
          refine ⟨h1, ?_, h3⟩
          by_cases hce : pyLower ct = ""
          · exact Or.inl hce
          · exact Or.inr (h2 hce)
        · intro _
          exact h3
  · rw [if_pos h1]
    constructor
    · intro hr
      exact absurd rfl hr
    · rintro ⟨hr, _, _⟩
      exact absurd hr h1

theorem fetch_image_err (net : String → ImgFetchOutcome) (url : String)
    (h : net url = ImgFetchOutcome.err) : fetch_image_bytes net url = ([], "") := by
  unfold fetch_image_bytes
  rw [h]

/-- C6 counterexample: a candidate whose GET answers 200 with an empty
content type and a non-empty body is accepted by the cascade's validator
even though the lightweight HEAD probe reports failure — no probe is
consulted (`image_url_ok` is never called by the cascade). -/
theorem c6_validator_ignores_head_probe_counterexample :
    head_probe_ok (HeadOutcome.resp 404) = false ∧
    fetch_image_bytes (fun _ => ImgFetchOutcome.resp 200 "" [37]) "http://img.example/p" =
      ([37], "") := by
  decide

/-- C6 as amended: the cascade's validator (`fetch_image_bytes`) accepts
exactly when the HTTP status is in 200-399 AND the content type is empty or
advertises an image family AND the payload is non-empty; an empty content
type is accepted without any HEAD probe, and a zero-length payload or a
transport error is always rejected. -/
theorem c6_image_validator_characterization (net : String → ImgFetchOutcome) (url : String)
    (code : Int) (ct : String) (data : List UInt8) :
    (net url = ImgFetchOutcome.resp code ct data →
      ((fetch_image_bytes net url).1 ≠ [] ↔
        (200 ≤ code ∧ code < 400) ∧
        (pyLower ct = "" ∨ strContains (pyLower ct) "image" = true) ∧ data ≠ [])) ∧
    (net url = ImgFetchOutcome.err → fetch_image_bytes net url = ([], "")) ∧
    (data = [] → net url = ImgFetchOutcome.resp code ct data →
      (fetch_image_bytes net url).1 = []) := by
  refine ⟨fetch_image_resp_iff net url code ct data, fetch_image_err net url, ?_⟩
  intro hd hnet
  by_contra hne
  exact ((fetch_image_resp_iff net url code ct data hnet).mp hne).2.2 hd

/-- C6 amended witness: a 200 response with an image content type and body
is accepted; a transport error and an empty body are rejected. -/
theorem c6_image_validator_characterization_witness :
    (fetch_image_bytes (fun _ => ImgFetchOutcome.resp 200 "image/png" [1]) "u").1 ≠ [] ∧
    fetch_image_bytes (fun _ => ImgFetchOutcome.err) "u" = ([], "") ∧
    (fetch_image_bytes (fun _ => ImgFetchOutcome.resp 200 "image/png" []) "u").1 = [] := by
  refine ⟨?_, ?_, ?_⟩
  · exact ((c6_image_validator_characterization
      (fun _ => ImgFetchOutcome.resp 200 "image/png" [1]) "u" 200 "image/png" [1]).1
      rfl).mpr (by decide)
  · exact (c6_image_validator_characterization
      (fun _ => ImgFetchOutcome.err) "u" 0 "" []).2.1 rfl
  · exact (c6_image_validator_characterization
      (fun _ => ImgFetchOutcome.resp 200 "image/png" []) "u" 200 "image/png" []).2.2 rfl rfl

/-! ### `scripts/fetch_douban.py` — publish-queue merger (lines 433-473)

The queue file is only ever written by `update_publish_queue`, whose entries
have exactly the seven fields below; `new_items` carry the five fields
`main` assembles (lines 603-609). `now` is the `queued_at` timestamp oracle
for this merge. -/

structure QueueEntry where
  title : String
  url : String
  source : String
  date : String
  file : String
  state : String
  queued_at : String
deriving DecidableEq

structure NewItem where
  title : String
  url : String
  source : String
  date : String
  file : String
deriving DecidableEq

/-- The normalized record written for a new item (lines 461-469). -/
def normEntry (now : String) (it : NewItem) : QueueEntry :=
  { title := pyStrip it.title, url := pyStrip it.url, source := pyStrip it.source,
    date := pyStrip it.date, file := pyStrip it.file, state := "pending", queued_at := now }

/-- Lines 452-455: index one existing entry by its stripped url. -/
def stepCur (m : List (String × QueueEntry)) (e : QueueEntry) : List (String × QueueEntry) :=
  if pyStrip e.url = "" then m else aupsert m (pyStrip e.url) e

def buildByUrl (current : List QueueEntry) : List (String × QueueEntry) :=
  current.foldl stepCur []

/-- Lines 457-469: overlay one new item. -/
def stepNew (now : String) (m : List (String × QueueEntry)) (it : NewItem) :
    List (String × QueueEntry) :=
  if pyStrip it.url = "" then m else aupsert m (pyStrip it.url) (normEntry now it)

def addNewItems (now : String) (m : List (String × QueueEntry)) (new : List NewItem) :
    List (String × QueueEntry) :=
  new.foldl (stepNew now) m

/-- `a` may precede `b` in the emitted queue: `(date, url)` of `b` is
lexicographically at most that of `a` (line 471, `reverse=True`). -/
def queueLe (a b : QueueEntry) : Prop :=
  b.date < a.date ∨ (b.date = a.date ∧ b.url ≤ a.url)

instance : DecidableRel queueLe := fun a b =>
  decidable_of_iff (b.date < a.date ∨ (b.date = a.date ∧ b.url ≤ a.url)) Iff.rfl

instance : IsTotal QueueEntry queueLe where
  total a b := by
    rcases lt_trichotomy a.date b.date with h | h | h
    · exact Or.inr (Or.inl h)
    · rcases le_total a.url b.url with hu | hu
      · exact Or.inr (Or.inr ⟨h, hu⟩)
      · exact Or.inl (Or.inr ⟨h.symm, hu⟩)
    · exact Or.inl (Or.inl h)

instance : IsTrans QueueEntry queueLe where
  trans a b c h1 h2 := by
    rcases h1 with h1 | ⟨h1d, h1u⟩
    · rcases h2 with h2 | ⟨h2d, h2u⟩
      · exact Or.inl (lt_trans h2 h1)
      · exact Or.inl (h2d ▸ h1)
    · rcases h2 with h2 | ⟨h2d, h2u⟩
      · exact Or.inl (h1d ▸ h2)
      · exact Or.inr ⟨h2d.trans h1d, le_trans h2u h1u⟩

/-- Python's `sorted(..., key=lambda x: (date, url), reverse=True)`: a stable
descending sort, modelled by stable insertion sort under `queueLe`. -/
def sortQueue (l : List QueueEntry) : List QueueEntry := l.insertionSort queueLe

/-- Lines 445-473: the queue merge. With no new items the function returns
before touching the file (lines 446-447), so the persisted queue is exactly
the old one. -/
def update_publish_queue (now : String) (current : List QueueEntry)
    (new_items : List NewItem) : List QueueEntry :=
  if new_items = [] then current
  else sortQueue ((addNewItems now (buildByUrl current) new_items).map Prod.snd)

/-- The key of a merged pair is the stripped url of its entry, and non-empty. -/
def goodPair (p : String × QueueEntry) : Prop :=
  p.1 = pyStrip p.2.url ∧ p.1 ≠ ""

theorem buildByUrl_good (Q : List QueueEntry) : ∀ p ∈ buildByUrl Q, goodPair p := by
  unfold buildByUrl
  refine foldl_preserve (P := fun m => ∀ p ∈ m, goodPair p) ?_ ?_
  · intro m e _ hm p hp
    unfold stepCur at hp
    by_cases hb : pyStrip e.url = ""
    · rw [if_pos hb] at hp
      exact hm p hp
    · rw [if_neg hb] at hp
      rcases mem_aupsert hp with hp2 | hp2
      · exact hm p hp2
      · subst hp2
        exact ⟨rfl, hb⟩
  · intro p hp
    cases hp

theorem addNewItems_good (now : String) (m : List (String × QueueEntry)) (N : List NewItem)
    (hm : ∀ p ∈ m, goodPair p) : ∀ p ∈ addNewItems now m N, goodPair p := by
  unfold addNewItems
  refine foldl_preserve (P := fun m2 => ∀ p ∈ m2, goodPair p) ?_ hm
  intro m2 it _ hm2 p hp
  unfold stepNew at hp
  by_cases hb : pyStrip it.url = ""
  · rw [if_pos hb] at hp
    exact hm2 p hp
  · rw [if_neg hb] at hp
    rcases mem_aupsert hp with hp2 | hp2
    · exact hm2 p hp2
    · subst hp2
      refine ⟨?_, hb⟩
      show pyStrip it.url = pyStrip (pyStrip it.url)
      rw [pyStrip_idem]

theorem buildByUrl_nodup (Q : List QueueEntry) : (akeys (buildByUrl Q)).Nodup := by
  unfold buildByUrl
  refine foldl_preserve (P := fun m => (akeys m).Nodup) ?_ List.nodup_nil
  intro m e _ hm
  unfold stepCur
  by_cases hb : pyStrip e.url = ""
  · rw [if_pos hb]
    exact hm
  · rw [if_neg hb]
    exact nodup_akeys_aupsert _ _ _ hm

theorem addNewItems_nodup (now : String) (m : List (String × QueueEntry)) (N : List NewItem)
    (hm : (akeys m).Nodup) : (akeys (addNewItems now m N)).Nodup := by
  unfold addNewItems
  refine foldl_preserve (P := fun m2 => (akeys m2).Nodup) ?_ hm
  intro m2 it _ hm2
  unfold stepNew
  by_cases hb : pyStrip it.url = ""
  · rw [if_pos hb]
    exact hm2
  · rw [if_neg hb]
    exact nodup_akeys_aupsert _ _ _ hm2

/-- The last new item whose stripped url is `u` (in a Python dict overlay,
the last write wins). -/
def lastMatch (u : String) : List NewItem → Option NewItem
  | [] => none
  | it :: rest =>
    match lastMatch u rest with
    | some x => some x
    | none => if pyStrip it.url = u then some it else none

theorem alookup_addNewItems (now : String) (u : String) (hu : u ≠ "") (N : List NewItem) :
    ∀ m, alookup (addNewItems now m N) u =
      (match lastMatch u N with
       | some it => some (normEntry now it)
       | none => alookup m u) := by
  induction N with
  | nil => intro m; rfl
  | cons it rest ih =>
    intro m
    show alookup (addNewItems now (stepNew now m it) rest) u = _
    rw [ih (stepNew now m it)]
    cases hl : lastMatch u rest with
    | some x =>
      show some (normEntry now x) = _
      unfold lastMatch
      rw [hl]
    | none =>
      show alookup (stepNew now m it) u = _
      unfold lastMatch
      rw [hl]
      unfold stepNew
      by_cases hb : pyStrip it.url = ""
      · rw [if_pos hb]
        rw [if_neg (show ¬ pyStrip it.url = u from hb ▸ fun hh => hu hh.symm)]
      · rw [if_neg hb]
        by_cases hit : pyStrip it.url = u
        · rw [if_pos hit, hit, alookup_aupsert_self]
        · rw [if_neg hit, alookup_aupsert_ne _ _ _ _ (fun hh => hit hh.symm)]

theorem lastMatch_of_mem {u : String} {it : NewItem} {N : List NewItem}
    (hmem : it ∈ N) (hit : pyStrip it.url = u) : ∃ x, lastMatch u N = some x := by
  induction N with
  | nil => cases hmem
  | cons a rest ih =>
    rcases List.mem_cons.mp hmem with h1 | h1
    · subst h1
      cases hl : lastMatch u rest with
      | some x =>
        refine ⟨x, ?_⟩
        unfold lastMatch
        rw [hl]
      | none =>
        refine ⟨it, ?_⟩
        unfold lastMatch
        rw [hl, if_pos hit]
    · obtain ⟨x, hx⟩ := ih h1
      refine ⟨x, ?_⟩
      unfold lastMatch
      rw [hx]

theorem hasKey_congr_mem {β : Type} {m₁ m₂ : List (String × β)} (k : String)
    (h : ∀ a, a ∈ akeys m₁ ↔ a ∈ akeys m₂) : hasKey m₁ k = hasKey m₂ k := by
  cases hk : hasKey m₂ k with
  | true =>
    exact (hasKey_iff_mem m₁ k).mpr ((h k).mpr ((hasKey_iff_mem m₂ k).mp hk))
  | false =>
    cases hk1 : hasKey m₁ k with
    | false => rfl
    | true =>
      rw [(hasKey_iff_mem m₂ k).mpr ((h k).mp ((hasKey_iff_mem m₁ k).mp hk1))] at hk
      cases hk

theorem akeys_addNewItems_eq (now : String) (N : List NewItem) :
    ∀ m, (∀ it ∈ N, pyStrip it.url = "" ∨ hasKey m (pyStrip it.url) = true) →
      akeys (addNewItems now m N) = akeys m := by
  induction N with
  | nil => intro m _; rfl
  | cons it rest ih =>
    intro m hm
    show akeys (addNewItems now (stepNew now m it) rest) = akeys m
    have hstep : akeys (stepNew now m it) = akeys m := by
      unfold stepNew
      by_cases hbb : pyStrip it.url = ""
      · rw [if_pos hbb]
      · rw [if_neg hbb]
        rcases hm it (List.mem_cons_self it rest) with hb | hb
        · exact absurd hb hbb
        · exact akeys_aupsert_hasKey _ _ _ hb
    have hmemiff : ∀ a, a ∈ akeys (stepNew now m it) ↔ a ∈ akeys m := by
      intro a
      rw [hstep]
    rw [ih (stepNew now m it) ?_, hstep]
    intro it2 hit2
    rcases hm it2 (List.mem_cons_of_mem it hit2) with hb | hb
    · exact Or.inl hb
    · refine Or.inr ?_
      rw [hasKey_congr_mem (pyStrip it2.url) hmemiff]
      exact hb

theorem alookup_addNewItems_empty (now : String) (N : List NewItem) :
    ∀ m, alookup (addNewItems now m N) "" = alookup m "" := by
  induction N with
  | nil => intro m; rfl
  | cons it rest ih =>
    intro m
    show alookup (addNewItems now (stepNew now m it) rest) "" = alookup m ""
    rw [ih (stepNew now m it)]
    unfold stepNew
    by_cases hb : pyStrip it.url = ""
    · rw [if_pos hb]
    · rw [if_neg hb]
      exact alookup_aupsert_ne _ _ _ _ (fun hh => hb hh.symm)

theorem addNewItems_absorb (now : String) (S : List (String × QueueEntry)) (N : List NewItem)
    (hnd : (akeys S).Nodup)
    (hkeys : ∀ it ∈ N, pyStrip it.url = "" ∨ hasKey S (pyStrip it.url) = true)
    (hvals : ∀ u it, u ≠ "" → lastMatch u N = some it →
      alookup S u = some (normEntry now it)) :
    addNewItems now S N = S := by
  apply assoc_ext (addNewItems_nodup now S N hnd) (akeys_addNewItems_eq now N S hkeys)
  intro k
  by_cases hk : k = ""
  · subst hk
    exact alookup_addNewItems_empty now N S
  · rw [alookup_addNewItems now k hk N S]
    cases hl : lastMatch k N with
    | some it => exact (hvals k it hk hl).symm
    | none => rfl

theorem buildByUrl_of_pairs : ∀ (L acc : List (String × QueueEntry)),
    (∀ p ∈ L, goodPair p) → (akeys (acc ++ L)).Nodup →
    List.foldl stepCur acc (L.map Prod.snd) = acc ++ L := by
  intro L
  induction L with
  | nil =>
    intro acc _ _
    simp
  | cons p L ih =>
    intro acc hgood hnd
    obtain ⟨k, v⟩ := p
    have hg := hgood (k, v) (List.mem_cons_self _ _)
    have hkacc : hasKey acc k = false := by
      rw [akeys, List.map_append] at hnd
      rcases List.nodup_append.mp hnd with ⟨_, _, hdisj⟩
      cases hkk : hasKey acc k with
      | false => rfl
      | true =>
        exact absurd (List.mem_cons_self k (akeys L))
          (by
            have hmem := (hasKey_iff_mem acc k).mp hkk
            have : k ∈ List.map Prod.fst ((k, v) :: L) → False := hdisj hmem
            exact this)
    rw [List.map_cons, List.foldl_cons]
    have hstep : stepCur acc v = acc ++ [(k, v)] := by
      unfold stepCur
      rw [show pyStrip v.url = k from hg.1.symm, if_neg hg.2]
      unfold aupsert
      rw [hkacc]
      simp [Bool.false_eq_true]
    rw [hstep]
    have hre : acc ++ (k, v) :: L = (acc ++ [(k, v)]) ++ L := by simp
    rw [hre]
    apply ih (acc ++ [(k, v)]) (fun q hq => hgood q (List.mem_cons_of_mem _ hq))
    rw [List.append_assoc]
    simpa using hnd

/-- Re-pair a list of merged entries with their stripped urls. -/
def repairQ (l : List QueueEntry) : List (String × QueueEntry) :=
  l.map (fun v => (pyStrip v.url, v))

theorem repairQ_snd (l : List QueueEntry) : (repairQ l).map Prod.snd = l := by
  unfold repairQ
  rw [List.map_map]
  conv_rhs => rw [← List.map_id l]
  apply List.map_congr_left
  intro v _
  rfl

theorem repairQ_of_good (m : List (String × QueueEntry)) (h : ∀ p ∈ m, goodPair p) :
    repairQ (m.map Prod.snd) = m := by
  unfold repairQ
  rw [List.map_map]
  conv_rhs => rw [← List.map_id m]
  apply List.map_congr_left
  intro p hp
  show (pyStrip p.2.url, p.2) = p
  rw [← (h p hp).1]

/-- C5: queue merge is idempotent. Merging no new items returns the
persisted queue untouched, and merging the same new-item list into the
result of merging it changes nothing. -/
theorem c5_queue_merge_idempotent (now : String) (Q : List QueueEntry) (N : List NewItem) :
    update_publish_queue now Q [] = Q ∧
    update_publish_queue now (update_publish_queue now Q N) N =
      update_publish_queue now Q N := by
  constructor
  · unfold update_publish_queue
    rw [if_pos rfl]
  · by_cases hN : N = []
    · subst hN
      unfold update_publish_queue
      rw [if_pos rfl, if_pos rfl]
    · unfold update_publish_queue
      rw [if_neg hN, if_neg hN]
      have hgoodM : ∀ p ∈ addNewItems now (buildByUrl Q) N, goodPair p :=
        addNewItems_good now _ N (buildByUrl_good Q)
      have hndM : (akeys (addNewItems now (buildByUrl Q) N)).Nodup :=
        addNewItems_nodup now _ N (buildByUrl_nodup Q)
      set M := addNewItems now (buildByUrl Q) N with hM
      set V := sortQueue (M.map Prod.snd) with hV
      have hperm : V.Perm (M.map Prod.snd) := List.perm_insertionSort queueLe _
      have hgoodS : ∀ p ∈ repairQ V, goodPair p := by
        intro p hp
        unfold repairQ at hp
        rw [List.mem_map] at hp
        obtain ⟨v, hv, hvp⟩ := hp
        subst hvp
        refine ⟨rfl, ?_⟩
        have hv2 : v ∈ M.map Prod.snd := hperm.mem_iff.mp hv
        rw [List.mem_map] at hv2
        obtain ⟨q, hq, hqv⟩ := hv2
        have hg := hgoodM q hq
        rw [← hqv, ← hg.1]
        exact hg.2
      have hSperm : (repairQ V).Perm M := by
        have h1 : (repairQ V).Perm (repairQ (M.map Prod.snd)) := by
          unfold repairQ
          exact hperm.map _
        rw [repairQ_of_good M hgoodM] at h1
        exact h1
      have hndS : (akeys (repairQ V)).Nodup := ((hSperm.map Prod.fst).nodup_iff).mpr hndM
      have hbuild : buildByUrl V = repairQ V := by
        show List.foldl stepCur [] V = repairQ V
        conv_lhs => rw [← repairQ_snd V]
        rw [buildByUrl_of_pairs (repairQ V) [] hgoodS hndS]
        rw [List.nil_append]
      have habs : addNewItems now (repairQ V) N = repairQ V := by
        apply addNewItems_absorb now _ N hndS
        · intro it hit
          by_cases hb : pyStrip it.url = ""
          · exact Or.inl hb
          · refine Or.inr ?_
            obtain ⟨x, hx⟩ := lastMatch_of_mem hit rfl
            have hlook2 : alookup (repairQ V) (pyStrip it.url) = some (normEntry now x) := by
              rw [alookup_perm hSperm hndS (pyStrip it.url), hM]
              rw [alookup_addNewItems now _ hb N (buildByUrl Q), hx]
            exact alookup_some_hasKey hlook2
        · intro u it hu hl
          rw [alookup_perm hSperm hndS u, hM]
          rw [alookup_addNewItems now u hu N (buildByUrl Q), hl]
      rw [hbuild, habs, repairQ_snd]
      exact (List.sorted_insertionSort queueLe _).insertionSort_eq

/-- C7: after a merge with new items the emitted queue has exactly one entry
per (stripped) url, is sorted by `(date, url)` descending, and the entry for
a url written by the merge is the normalized record of the last new item
with that url — the later item's title wins. -/
theorem c7_queue_merge_unique_sorted (now : String) (Q : List QueueEntry) (N : List NewItem)
    (hN : N ≠ []) :
    ((update_publish_queue now Q N).map (fun e => pyStrip e.url)).Nodup ∧
    List.Sorted queueLe (update_publish_queue now Q N) ∧
    (∀ u it e, u ≠ "" → lastMatch u N = some it → e ∈ update_publish_queue now Q N →
      pyStrip e.url = u → e = normEntry now it) := by
  have hgoodM : ∀ p ∈ addNewItems now (buildByUrl Q) N, goodPair p :=
    addNewItems_good now _ N (buildByUrl_good Q)
  have hndM : (akeys (addNewItems now (buildByUrl Q) N)).Nodup :=
    addNewItems_nodup now _ N (buildByUrl_nodup Q)
  unfold update_publish_queue
  rw [if_neg hN]
  refine ⟨?_, List.sorted_insertionSort queueLe _, ?_⟩
  · have hperm : (sortQueue ((addNewItems now (buildByUrl Q) N).map Prod.snd)).Perm
        ((addNewItems now (buildByUrl Q) N).map Prod.snd) :=
      List.perm_insertionSort queueLe _
    apply ((hperm.map (fun e => pyStrip e.url)).nodup_iff).mpr
    rw [List.map_map]
    have hcongr : (addNewItems now (buildByUrl Q) N).map ((fun e => pyStrip e.url) ∘ Prod.snd) =
        akeys (addNewItems now (buildByUrl Q) N) := by
      unfold akeys
      apply List.map_congr_left
      intro p hp
      exact ((hgoodM p hp).1).symm
    rw [hcongr]
    exact hndM
  · intro u it e hu hl hmem hstrip
    have hmem2 : e ∈ (addNewItems now (buildByUrl Q) N).map Prod.snd :=
      (List.mem_insertionSort queueLe).mp hmem
    obtain ⟨p, hp, hpe⟩ := List.mem_map.mp hmem2
    have hpu : p.1 = u := by
      rw [(hgoodM p hp).1]
      show pyStrip p.2.url = u
      rw [show p.2 = e from hpe, hstrip]
    have hpair : p = (u, e) := by
      rw [← hpu, ← hpe]
    have hpmem : (u, e) ∈ addNewItems now (buildByUrl Q) N := hpair ▸ hp
    have hlookup := mem_alookup hndM hpmem
    rw [alookup_addNewItems now u hu N (buildByUrl Q)] at hlookup
    rw [hl] at hlookup
    exact (Option.some.inj hlookup).symm

def itA : NewItem := ⟨"Title A", "u", "s", "2024-01-01", "fa"⟩

def itB : NewItem := ⟨"Title B", "u", "s", "2024-01-01", "fb"⟩

/-- C7 witness: merging two items with the same url in one batch keeps exactly
one entry carrying the later item's title. -/
theorem c7_queue_merge_unique_sorted_witness :
    ((update_publish_queue "t" [] [itA, itB]).map (fun e => pyStrip e.url)).Nodup ∧
    List.Sorted queueLe (update_publish_queue "t" [] [itA, itB]) ∧
    (∀ e ∈ update_publish_queue "t" [] [itA, itB], pyStrip e.url = "u" →
      e = normEntry "t" itB) := by
  have h := c7_queue_merge_unique_sorted "t" [] [itA, itB] (by decide)
  exact ⟨h.1, h.2.1,
    fun e hmem hstrip => h.2.2 "u" itB e (by decide) (by decide) hmem hstrip⟩
